import Mathlib

/-!
Verification of the segmentation frame codec and indexing engine of the
highdicom fork (src/highdicom/frame.py, src/highdicom/seg/content.py and
src/highdicom/seg/sop.py) against its natural-language specification.

The Python code is shallowly embedded: numpy arrays become nested lists,
machine integers become Nat/Int with explicit modular reduction where the
code wraps, floating point sample values become rationals, exceptions
become an error enumeration, and the mutable Segmentation dataset becomes
an explicit state record threaded through the translated methods.
External collaborators (the pluggable image codecs of PIL/pydicom) are
abstracted as function parameters, following the specification's contract
for them; byte-level helpers of pydicom (pack_bits, the numpy pixel-data
handler, encapsulate) are modelled concretely from their documented
semantics (LSB-first bit packing, little-endian samples).
-/

set_option maxRecDepth 10000

namespace HighdicomSeg

/-! ### Definitions -/

/-- Fuel-driven worker for `chunksOf`, so that the definition is structural
and reduces inside the kernel. -/
def chunksOfAux (w : Nat) : Nat → List α → List (List α)
  | _, [] => []
  | 0, _ :: _ => []
  | fuel + 1, a :: rest =>
      (a :: rest.take (w - 1)) :: chunksOfAux w fuel (rest.drop (w - 1))

/-- Splits a list into consecutive chunks of length `w` (the final chunk may
be shorter). Used to model reshaping a flat buffer into rows or samples. -/
def chunksOf (w : Nat) (l : List α) : List (List α) :=
  chunksOfAux w l.length l

/-- One byte from up to eight bits, LSB first. -/
def byteOfBits (bits : List Nat) : Nat :=
  bits.foldr (fun b acc => b + 2 * acc) 0

/-- Modelled from pydicom's pack_bits: LSB-first packing of a flat 0/1
sample list into bytes. -/
def packBits (bits : List Nat) : List Nat :=
  (chunksOf 8 bits).map byteOfBits

/-- The eight bits of one byte, LSB first. -/
def bitsOfByte (b : Nat) : List Nat :=
  (List.range 8).map (fun i => b / 2 ^ i % 2)

/-- Modelled from the numpy pixel-data handler: LSB-first unpacking of a
byte string into a flat bit list. -/
def unpackBits (bytes : List Nat) : List Nat :=
  bytes.flatMap bitsOfByte

/-- Little-endian bytes of an unsigned value, fixed width. -/
def toBytesLE : Nat → Nat → List Nat
  | 0, _ => []
  | w + 1, v => v % 256 :: toBytesLE w (v / 256)

/-- Unsigned value of little-endian bytes. -/
def fromBytesLE (bytes : List Nat) : Nat :=
  bytes.foldr (fun b acc => b + 256 * acc) 0

/-- Little-endian two's-complement serialization of one signed or unsigned
sample, as numpy tobytes produces for a fixed-width integer dtype. -/
def intToBytesLE (w : Nat) (v : Int) : List Nat :=
  toBytesLE w ((v % ((256 : Int) ^ w)).toNat)

/-- Reinterpretation of an unsigned little-endian sample value according to
the pixel representation: two's complement when the representation is 1,
plain unsigned otherwise. Models the dtype selection of the numpy
pixel-data handler. -/
def signAdjust (w : Nat) (pixelRepresentation : Nat) (u : Nat) : Int :=
  if pixelRepresentation = 1 ∧ 2 * u ≥ 256 ^ w then
    (u : Int) - (256 : Int) ^ w
  else
    (u : Int)

/-- The transfer syntaxes that frame.py and sop.py distinguish, plus a
constructor for every other UID. -/
inductive TransferSyntax
  | implicitVRLittleEndian
  | explicitVRLittleEndian
  | jpegBaseline
  | jpeg2000Lossless
  | rleLossless
  | other
deriving DecidableEq, Repr

/-- Whether the transfer syntax uses encapsulated (compressed) format. -/
def TransferSyntax.isEncapsulated : TransferSyntax → Bool
  | .jpegBaseline => true
  | .jpeg2000Lossless => true
  | .rleLossless => true
  | _ => false

inductive PhotometricInterpretation
  | monochrome1
  | monochrome2
  | rgb
  | ybrFull
deriving DecidableEq, Repr

inductive SegmentationTypeValues
  | BINARY
  | FRACTIONAL
deriving DecidableEq, Repr

inductive SegmentsOverlapValues
  | yes
  | undefined
  | no
deriving DecidableEq, Repr

inductive SpatialLocationsPreservedValues
  | yes
  | no
  | unknown
deriving DecidableEq, Repr

/-- The Python exceptions raised by the translated code, one constructor per
raise site family. -/
inductive SegErr
  | unsupportedTransferSyntax
  | invalidPixelRepresentation
  | bitPackNotMultipleOf8
  | missingPlanarConfiguration
  | pixelDataLengthMismatch
  | externalHandlerUnmodelled
  | encapsulatedMultiFrame
  | segmentsFromDataset
  | badRank
  | badShape
  | nonMonotonicSegments
  | emptyDescriptors
  | badFirstSegmentNumber
  | undescribedSegments
  | emptyArrayReduction
  | floatValuesOutOfRange
  | tooManyDescriptors
  | nonBinaryFloatValues
  | invalidDtype
  | duplicateSegment
  | planeCountMismatchSource
  | planeCountMismatchProvided
  | indexErrorSourcePositions
  | indexResolution
  | sourceImageIndex
  | danglingSourceReference
  | srcUidKeyError
  | srcUidMultiple
  | combineNotBinary
  | matrixNegative
  | matrixTooLarge
  | segmentNumbersShapeMismatch
  | segmentNumbersInvalid
  | overlappingSegments
  | keyErrorSegmentNumber
  | attributeErrorFrameLut
  | locationsNotPreservedUnknown
  | locationsNotPreservedNo
  | multipleSourceFramesPerSegFrame
  | emptySegmentNumbers
  | emptySourceUids
  | nonUniqueLutRows
  | keyErrorSourceUid
  | onlyOneSourceInstanceAllowed
  | keyErrorSourceFrame
  | internalIndexingError
  | noSourceImages
  | sourceImagesMismatch
  | multipleMultiframe
  | binaryEncapsulated
  | maxFractionalTooLarge
deriving DecidableEq, Repr

/-- Modelled from the spec: the registry of external image codecs
(PIL JPEG/JPEG 2000 and pydicom RLE) that encode_frame and decode_frame
delegate to for encapsulated transfer syntaxes. The codec implementations
live outside this repository; per the specification they are pluggable
functions taking raw samples to an opaque byte blob and back. The extra
jpegDecodeNoColorTransform field models the PIL decode path with the
implicit YCbCr color transform suppressed (the RGB workaround in
decode_frame). -/
structure FrameCodecs where
  jpegEncode : List (List Int) → List Nat
  jpeg2000Encode : List (List Int) → List Nat
  rleEncode : List (List Int) → List Nat
  jpegDecode : List Nat → List (List Int)
  jpeg2000Decode : List Nat → List (List Int)
  rleDecode : List Nat → List (List Int)
  jpegDecodeNoColorTransform : List Nat → List (List Int)

/-- Expected byte length of uncompressed pixel data, as computed by
pydicom's get_expected_length: bit-packed for 1-bit samples, whole bytes
otherwise. -/
def expectedPixelDataLength
    (rows columns samples frames bitsAllocated : Nat) : Nat :=
  let n := rows * columns * samples * frames
  if bitsAllocated = 1 then (n + 7) / 8 else n * (bitsAllocated / 8)

/-- Translation of encode_frame for monochrome frames. The array is a
rows-by-columns grid of integer samples; the colour branch (array rank
above 2) of the source cannot arise for a two-dimensional sample grid and
is outside this embedding. -/
def encodeFrame (codecs : FrameCodecs) (array : List (List Int))
    (transferSyntaxUid : TransferSyntax) (bitsAllocated bitsStored : Nat)
    (photometricInterpretation : PhotometricInterpretation)
    (pixelRepresentation : Nat) : Except SegErr (List Nat) :=
  let rows := array.length
  let cols := (array.headD []).length
  let samplesPerPixel := 1
  if pixelRepresentation ≠ 0 ∧ pixelRepresentation ≠ 1 then
    .error .invalidPixelRepresentation
  else if transferSyntaxUid = .other then
    .error .unsupportedTransferSyntax
  else if transferSyntaxUid.isEncapsulated = false then
    if bitsAllocated = 1 then
      if (rows * cols * samplesPerPixel) % 8 ≠ 0 then
        .error .bitPackNotMultipleOf8
      else
        .ok (packBits (array.flatten.map Int.toNat))
    else
      .ok (array.flatten.flatMap (intToBytesLE (bitsAllocated / 8)))
  else
    match transferSyntaxUid with
    | .jpegBaseline => .ok (codecs.jpegEncode array)
    | .jpeg2000Lossless => .ok (codecs.jpeg2000Encode array)
    | .rleLossless => .ok (codecs.rleEncode array)
    | _ => .error .unsupportedTransferSyntax

/-- Translation of decode_frame for monochrome frames. The uncompressed
branch models pydicom's numpy pixel-data handler (length check with an
optional padding byte, LSB-first bit unpacking, little-endian samples with
a two's-complement reinterpretation for pixel representation 1); the
encapsulated branch delegates to the codec registry, with the JPEG RGB
workaround passed through. The colour reshaping of the handler is outside
this embedding. -/
def decodeFrame (codecs : FrameCodecs) (value : List Nat)
    (transferSyntaxUid : TransferSyntax) (rows columns samplesPerPixel : Nat)
    (bitsAllocated bitsStored : Nat)
    (photometricInterpretation : PhotometricInterpretation)
    (pixelRepresentation : Nat) (planarConfiguration : Option Nat) :
    Except SegErr (List (List Int)) :=
  if pixelRepresentation ≠ 0 ∧ pixelRepresentation ≠ 1 then
    .error .invalidPixelRepresentation
  else if samplesPerPixel > 1 ∧ planarConfiguration = none then
    .error .missingPlanarConfiguration
  else if transferSyntaxUid.isEncapsulated then
    match transferSyntaxUid, photometricInterpretation with
    | .jpegBaseline, .rgb => .ok (codecs.jpegDecodeNoColorTransform value)
    | .jpegBaseline, _ => .ok (codecs.jpegDecode value)
    | .jpeg2000Lossless, _ => .ok (codecs.jpeg2000Decode value)
    | .rleLossless, _ => .ok (codecs.rleDecode value)
    | _, _ => .error .unsupportedTransferSyntax
  else if transferSyntaxUid = .other then
    .error .unsupportedTransferSyntax
  else if samplesPerPixel ≠ 1 then
    .error .externalHandlerUnmodelled
  else
    let expected :=
      expectedPixelDataLength rows columns samplesPerPixel 1 bitsAllocated
    if value.length ≠ expected ∧ value.length ≠ expected + 1 then
      .error .pixelDataLengthMismatch
    else
      let raw := value.take expected
      if bitsAllocated = 1 then
        .ok (chunksOf columns
          (((unpackBits raw).take (rows * columns)).map Int.ofNat))
      else
        let w := bitsAllocated / 8
        .ok (chunksOf columns
          ((chunksOf w raw).map
            (fun ch => signAdjust w pixelRepresentation (fromBytesLE ch))))

/-- Modelled from the spec: the codec contract for encapsulated transfer
syntaxes, instantiated at one plane — decoding the encoded blob gives back
the plane. For uncompressed syntaxes no external codec is involved. -/
def codecInverseAt (codecs : FrameCodecs) (ts : TransferSyntax)
    (array : List (List Int)) : Prop :=
  match ts with
  | .jpegBaseline => codecs.jpegDecode (codecs.jpegEncode array) = array
  | .jpeg2000Lossless =>
      codecs.jpeg2000Decode (codecs.jpeg2000Encode array) = array
  | .rleLossless => codecs.rleDecode (codecs.rleEncode array) = array
  | _ => True

/-- Valid sample values for a pixel format: 0/1 for bit-packed frames,
in-range unsigned or two's-complement values otherwise. -/
def validSampleValues (bitsAllocated pixelRepresentation : Nat)
    (array : List (List Int)) : Prop :=
  if bitsAllocated = 1 then ∀ v ∈ array.flatten, v = 0 ∨ v = 1
  else ∀ v ∈ array.flatten,
    if pixelRepresentation = 1 then
      -((256 : Int) ^ (bitsAllocated / 8) / 2) ≤ v ∧
        2 * v < (256 : Int) ^ (bitsAllocated / 8)
    else 0 ≤ v ∧ v < (256 : Int) ^ (bitsAllocated / 8)

/-- Trivial codec registry used to instantiate the round-trip theorem at a
concrete plane. -/
def trivialCodecs (plane : List (List Int)) : FrameCodecs where
  jpegEncode := fun _ => []
  jpeg2000Encode := fun _ => []
  rleEncode := fun _ => []
  jpegDecode := fun _ => plane
  jpeg2000Decode := fun _ => plane
  rleDecode := fun _ => plane
  jpegDecodeNoColorTransform := fun _ => plane

/-- Lexicographic comparison of two integer vectors, the row order used by
numpy unique on a 2-D array. -/
def lexLe : List Int → List Int → Bool
  | [], _ => true
  | _ :: _, [] => false
  | a :: as, b :: bs => if a < b then true else if b < a then false else lexLe as bs

/-- Propositional form of `lexLe`. -/
def lexR (a b : List Int) : Prop := lexLe a b = true

instance : DecidableRel lexR := fun a b => by unfold lexR; infer_instance

theorem lexLe_total (a b : List Int) : lexLe a b = true ∨ lexLe b a = true := by
  induction a generalizing b with
  | nil => left; rfl
  | cons x xs ih =>
      match b with
      | [] => right; rfl
      | y :: ys =>
          by_cases hxy : x < y
          · left; simp [lexLe, hxy]
          · by_cases hyx : y < x
            · right; simp [lexLe, hyx, hxy]
            · rcases ih ys with h | h
              · left; simp [lexLe, hxy, hyx, h]
              · right
                simp [lexLe, hxy, hyx, h]

theorem lexLe_trans (a b c : List Int) (hab : lexLe a b = true)
    (hbc : lexLe b c = true) : lexLe a c = true := by
  induction a generalizing b c with
  | nil => rfl
  | cons x xs ih =>
      match b, c with
      | [], _ => simp [lexLe] at hab
      | _ :: _, [] => simp [lexLe] at hbc
      | y :: ys, z :: zs =>
          simp only [lexLe] at hab hbc ⊢
          rcases lt_trichotomy x y with h1 | h1 | h1
          · rcases lt_trichotomy y z with h2 | h2 | h2
            · have hxz : x < z := by omega
              simp [hxz]
            · subst h2
              simp [h1]
            · rw [if_neg (by omega : ¬ y < z), if_pos h2] at hbc
              exact absurd hbc (by simp)
          · subst h1
            rcases lt_trichotomy x z with h2 | h2 | h2
            · simp [h2]
            · subst h2
              rw [if_neg (lt_irrefl x), if_neg (lt_irrefl x)] at hab hbc ⊢
              exact ih ys zs hab hbc
            · rw [if_neg (by omega : ¬ x < z), if_pos h2] at hbc
              exact absurd hbc (by simp)
          · rw [if_neg (by omega : ¬ x < y), if_pos h1] at hab
            exact absurd hab (by simp)

instance : IsTotal (List Int) lexR :=
  ⟨fun a b => by unfold lexR; exact lexLe_total a b⟩

instance : IsTrans (List Int) lexR :=
  ⟨fun a b c hab hbc => lexLe_trans a b c hab hbc⟩

/-- A plane position is the vector of indexed attribute values of one
plane, each attribute value itself a vector of integers (a 3-vector for
Image Position Patient, scalars for the five slide attributes). -/
abbrev PlanePos := List (List Int)

/-- Index of the first occurrence of an element in a list (0 when absent at
the end of the list), as numpy return_index reports it. -/
def idxOf [DecidableEq α] (r : α) : List α → Nat
  | [] => 0
  | x :: xs => if x = r then 0 else idxOf r xs + 1

/-- Modelled from numpy unique with axis 0 and return_index: the first
occurrence indices of the distinct rows, listed in ascending lexicographic
order of the rows. -/
def uniqueSortIndices (rows : List (List Int)) : List Nat :=
  (List.insertionSort lexR rows.dedup).map (fun r => idxOf r rows)

/-- Translation of DimensionIndexSequence.get_index_values: returns the
matrix of per-plane attribute values together with the plane sort indices
produced by numpy unique over its rows (each row compared as its flattened
value vector). -/
def getIndexValues (planePositions : List PlanePos) :
    List PlanePos × List Nat :=
  (planePositions, uniqueSortIndices (planePositions.map List.flatten))

instance {ε α : Type} [DecidableEq ε] [DecidableEq α] :
    DecidableEq (Except ε α) := fun x y =>
  match x, y with
  | .ok a, .ok b => decidable_of_iff (a = b) (by simp)
  | .error a, .error b => decidable_of_iff (a = b) (by simp)
  | .ok _, .error _ => isFalse (fun h => by cases h)
  | .error _, .ok _ => isFalse (fun h => by cases h)

structure SegmentDescription where
  segmentNumber : Nat
  payload : Nat := 0
deriving DecidableEq, Repr

structure SrcImageRef where
  referencedSOPInstanceUID : Nat
  spatialLocationsPreserved : Option SpatialLocationsPreservedValues := none
  referencedFrameNumber : Option (List Int) := none
deriving DecidableEq, Repr

structure DerivationImage where
  sourceImageSequence : List SrcImageRef
deriving DecidableEq, Repr

structure FrameItem where
  segmentNumber : Nat
  dimensionIndexValues : List Nat
  planePosition : PlanePos
  derivationImageSequence : List DerivationImage
deriving DecidableEq, Repr

structure LutState where
  singleSourceFramePerSegFrame : Bool
  locationsPreserved : Option SpatialLocationsPreservedValues
  frameLut : List (Nat × Nat × Int)
deriving DecidableEq, Repr

structure SegState where
  segmentsOverlap : Option SegmentsOverlapValues
  segmentSequence : List SegmentDescription
  segmentInventory : List Nat
  numberOfFrames : Nat
  perFrameFunctionalGroups : List FrameItem
  pixelData : List Nat
  luts : LutState
deriving DecidableEq, Repr

structure SegContext where
  rows : Nat
  columns : Nat
  samplesPerPixel : Nat
  bitsAllocated : Nat
  bitsStored : Nat
  segmentationType : SegmentationTypeValues
  maximumFractionalValue : Nat
  transferSyntax : TransferSyntax
  sourceImagesPresent : Bool
  isMultiframe : Bool
  numSourceImages : Nat
  sourceImageUids : List Nat
  refInstanceUids : List Nat
  sourcePlanePositions : List PlanePos
  planeOrientationMatches : Bool
  codecs : FrameCodecs

inductive IntDtype
  | bool_
  | uint8
  | uint16
deriving DecidableEq, Repr

/-- The pixel data of a numpy array by dtype family: small unsigned
integers and booleans (booleans stored as 0/1), floating point samples
(as rationals), or any other dtype. -/
inductive PixelContent
  | ints (dtype : IntDtype) (planes : List (List (List Nat)))
  | floats (planes : List (List (List Rat)))
  | otherDtype (shape : Nat × Nat)
deriving DecidableEq, Repr

/-- A numpy array as add_segments receives it: its rank as numpy reports
it, and its pixel content already in stack-of-planes form (a rank-2 array
holds exactly one plane, matching the newaxis lift at the top of
add_segments). -/
structure NpArray where
  ndim : Nat
  content : PixelContent
deriving DecidableEq, Repr

def flatten3 (planes : List (List (List α))) : List α :=
  (planes.map List.flatten).flatten

def sum2 (p : List (List Nat)) : Nat := (p.map List.sum).sum

def sortedUniqueNat (l : List Nat) : List Nat :=
  List.insertionSort (fun a b => a ≤ b) l.dedup

/-- numpy diff equal to one everywhere: consecutive entries ascend by
exactly 1. -/
def contiguousByOne (l : List Nat) : Bool :=
  (l.zip l.tail).all (fun p => p.2 == p.1 + 1)

def maxList (l : List Nat) : Nat := l.foldr Nat.max 0

/-- Rectangular shape of one plane, when all its rows agree. -/
def rectShape (p : List (List α)) : Option (Nat × Nat) :=
  let c := (p.headD []).length
  if p.all (fun r => r.length == c) then some (p.length, c) else none

/-- Common rectangular shape of a stack of planes; none when the stack is
empty or ragged (not representable as one numpy array). -/
def planesShape (planes : List (List (List α))) : Option (Nat × Nat) :=
  match planes with
  | [] => none
  | p :: _ =>
      match rectShape p with
      | none => none
      | some sh =>
          if planes.all (fun q => rectShape q == some sh) then some sh
          else none

def contentShape : PixelContent → Option (Nat × Nat)
  | .ints _ planes => planesShape planes
  | .floats planes => planesShape planes
  | .otherDtype sh => some sh

def contentNumPlanes : PixelContent → Nat
  | .ints _ planes => planes.length
  | .floats planes => planes.length
  | .otherDtype _ => 0

/-- Floor of a rational, computed from its normalized fraction. -/
def ratFloor (q : Rat) : Int := q.num / (q.den : Int)

/-- numpy around: round half to even. -/
def roundHalfEven (q : Rat) : Int :=
  let f := ratFloor q
  let r := q - (f : Rat)
  if r < 1 / 2 then f
  else if 1 / 2 < r then f + 1
  else if f % 2 = 0 then f else f + 1

/-- Translation of the dtype-driven pixel classification at the top of
add_segments (source lines 591 to 639): distinct positive values of an
integer mask must be described (with the single-binary-segment relabel
special case, whose uint8 multiply wraps modulo 256); float values must
lie in the unit interval, come with exactly one descriptor, and be exactly
0.0 or 1.0 for a BINARY segmentation (then cast to boolean). -/
def classifyPixels (segType : SegmentationTypeValues)
    (content : PixelContent) (described : List Nat) :
    Except SegErr PixelContent :=
  match content with
  | .ints dtype planes =>
      let present := sortedUniqueNat ((flatten3 planes).filter (fun v => 0 < v))
      if present = [1] ∧ described.length = 1 then
        .ok (.ints .uint8 (planes.map (fun p => p.map (fun row =>
          row.map (fun v => v * described.headD 0 % 256)))))
      else if ¬ present.all (fun v => described.contains v) then
        .error .undescribedSegments
      else .ok (.ints dtype planes)
  | .floats planes =>
      match flatten3 planes with
      | [] => .error .emptyArrayReduction
      | v :: vs =>
          let mn := vs.foldr min v
          let mx := vs.foldr max v
          if mn < 0 ∨ 1 < mx then .error .floatValuesOutOfRange
          else if described.length ≠ 1 then .error .tooManyDescriptors
          else if segType = .BINARY then
            if (flatten3 planes).any (fun u => decide (0 < u) && decide (u < 1)) then
              .error .nonBinaryFloatValues
            else
              .ok (.ints .bool_ (planes.map (fun p => p.map (fun row =>
                row.map (fun u => if u ≠ 0 then 1 else 0)))))
          else .ok (.floats planes)
  | .otherDtype _ => .error .invalidDtype

/-- All source SOP instance UIDs referenced by the derivation metadata of
one frame, in order (source lines 1113 to 1119). -/
def frameSourceInstances (f : FrameItem) : List Nat :=
  f.derivationImageSequence.flatMap
    (fun d => d.sourceImageSequence.map (fun s => s.referencedSOPInstanceUID))

/-- All referenced source frame numbers of one frame, with -1 standing for
a missing Referenced Frame Number (source lines 1131 to 1147). -/
def frameSourceFrames (f : FrameItem) : List Int :=
  f.derivationImageSequence.flatMap (fun d => d.sourceImageSequence.flatMap
    (fun s => match s.referencedFrameNumber with
      | some l => l
      | none => [-1]))

/-- The spatial-locations-preserved values of the frame derivation entries,
UNKNOWN when absent (source lines 1120 to 1129). -/
def frameLocations (f : FrameItem) : List SpatialLocationsPreservedValues :=
  f.derivationImageSequence.flatMap (fun d => d.sourceImageSequence.map
    (fun s => s.spatialLocationsPreserved.getD .unknown))

/-- A frame whose derivation metadata does not determine exactly one source
instance and exactly one source frame number (the condition at source
lines 1149 to 1153). -/
def ambiguousFrame (f : FrameItem) : Prop :=
  (frameSourceInstances f).dedup.length ≠ 1 ∨
    (frameSourceFrames f).dedup.length ≠ 1

instance : DecidablePred ambiguousFrame := fun f => by
  unfold ambiguousFrame; infer_instance

/-- Translation of _get_src_uid_index: numpy argwhere followed by item,
which raises when the UID is absent or appears more than once. -/
def getSrcUidIndex (refUids : List Nat) (uid : Nat) : Except SegErr Nat :=
  let c := refUids.count uid
  if c = 0 then .error .srcUidKeyError
  else if c = 1 then .ok (idxOf uid refUids)
  else .error .srcUidMultiple

/-- Worker for the frame loop of _build_luts: threads the
single-source-frame flag and the accumulated LUT columns. -/
def buildLutsAux (refUids : List Nat) :
    List FrameItem → Bool → List (Nat × Nat × Int) →
    Except SegErr (Bool × List (Nat × Nat × Int))
  | [], flag, acc => .ok (flag, acc)
  | f :: rest, flag, acc =>
      if ambiguousFrame f then
        buildLutsAux refUids rest false acc
      else
        let uid := (frameSourceInstances f).headD 0
        if ¬ refUids.contains uid then .error .danglingSourceReference
        else
          match getSrcUidIndex refUids uid with
          | .error e => .error e
          | .ok idx =>
              buildLutsAux refUids rest flag
                (acc ++ [(f.segmentNumber, idx, (frameSourceFrames f).headD (-1))])

/-- Translation of _build_luts (source lines 1095 to 1198): scans the
per-frame functional groups, summarises the spatial-locations flag, sets
the single-source-frame flag, and materialises the frame LUT only when
that flag holds. -/
def buildLuts (refUids : List Nat) (pffgs : List FrameItem) :
    Except SegErr LutState :=
  let locs := pffgs.flatMap frameLocations
  match buildLutsAux refUids pffgs true [] with
  | .error e => .error e
  | .ok (flag, rows) =>
      let locSummary :=
        if locs.any (fun v => decide (v = .no)) then
          some SpatialLocationsPreservedValues.no
        else if locs.all (fun v => decide (v = .yes)) then
          some SpatialLocationsPreservedValues.yes
        else none
      .ok { singleSourceFramePerSegFrame := flag,
            locationsPreserved := locSummary,
            frameLut := if flag then rows else [] }

/-- Validated data carried from the pure validation phase of add_segments
into its mutation phase. -/
structure ValidatedAdd where
  processed : PixelContent
  described : List Nat
  descriptors : List SegmentDescription
deriving Repr

/-- Translation of the input-validation prefix of add_segments (source
lines 537 to 643): from-dataset guard, rank check, row/column check,
descriptor numbering checks, dtype-driven pixel classification, and the
duplicate-segment check. No attribute of the object is assigned in this
region of the source. -/
def addSegmentsValidate (ctx : SegContext) (s : SegState) (arr : NpArray)
    (segmentDescriptions : List SegmentDescription) :
    Except SegErr ValidatedAdd :=
  if ¬ ctx.sourceImagesPresent then .error .segmentsFromDataset
  else if arr.ndim ≠ 2 ∧ arr.ndim ≠ 3 then .error .badRank
  else
    match contentShape arr.content with
    | none => .error .badShape
    | some (r, c) =>
      if ¬ (r = ctx.rows ∧ c = ctx.columns) then .error .badShape
      else
        let segNumStart :=
          if s.segmentInventory ≠ [] then maxList s.segmentInventory + 1 else 1
        let described := segmentDescriptions.map (fun d => d.segmentNumber)
        if ¬ contiguousByOne described then .error .nonMonotonicSegments
        else
          match described.head? with
          | none => .error .emptyDescriptors
          | some first =>
            if first ≠ segNumStart then .error .badFirstSegmentNumber
            else
              match classifyPixels ctx.segmentationType arr.content described with
              | .error e => .error e
              | .ok processed =>
                if described.any (fun n => s.segmentInventory.contains n) then
                  .error .duplicateSegment
                else .ok ⟨processed, described, segmentDescriptions⟩

/-- Python all over the elementwise comparison of provided and source
plane positions: short-circuits at the first mismatch, raises IndexError
when the provided list is strictly longer and all compared elements were
equal (source lines 692 to 698). -/
def comparePositionsToSource : List PlanePos → List PlanePos →
    Except Unit Bool
  | [], _ => .ok true
  | _ :: _, [] => .error ()
  | a :: as, b :: bs =>
      if a = b then comparePositionsToSource as bs else .ok false

/-- Translation of the per-axis distinct-value sets (source lines 705 to
708): numpy unique of each column of the plane position value matrix. -/
def dimensionPositionValues (ppv : List PlanePos) (numAxes : Nat) :
    List (List (List Int)) :=
  (List.range numAxes).map (fun idx =>
    List.insertionSort lexR ((ppv.map (fun row => row.getD idx [])).dedup))

/-- One-based rank of one attribute value within its distinct-value set;
numpy where yields an empty match and the subsequent index raises
(source lines 791 to 817). -/
def lookupDimensionIndex (vals : List (List Int)) (pos : List Int) :
    Except SegErr Nat :=
  if pos ∈ vals then .ok (idxOf pos vals + 1) else .error .indexResolution

def planeIndexValues : List (List (List Int)) → PlanePos →
    Except SegErr (List Nat)
  | _, [] => .ok []
  | [], _ :: _ => .ok []
  | vals :: restVals, pos :: restPos =>
      match lookupDimensionIndex vals pos with
      | .error e => .error e
      | .ok i =>
          match planeIndexValues restVals restPos with
          | .error e => .error e
          | .ok is => .ok (i :: is)

/-- Derivation metadata of one retained plane when spatial locations are
preserved (source lines 830 to 873): a single source image reference with
a one-based referenced frame number for a multi-frame source, or the j-th
single-frame source image. -/
def buildDerivation (ctx : SegContext) (preserved : Bool) (nSort j : Nat) :
    Except SegErr (List DerivationImage) :=
  if preserved then
    if nSort > ctx.numSourceImages then
      match ctx.sourceImageUids.head? with
      | none => .error .sourceImageIndex
      | some uid =>
          .ok [⟨[⟨uid, some .yes, some [(j : Int) + 1]⟩]⟩]
    else
      match ctx.sourceImageUids[j]? with
      | none => .error .sourceImageIndex
      | some uid => .ok [⟨[⟨uid, some .yes, none⟩]⟩]
  else .ok []

/-- Translation of the inner plane loop of add_segments (source lines 769
to 881): iterate over the sort permutation, skip planes whose sample sum
is zero, and append one per-frame functional-groups item (and bump the
frame count) for every retained plane, collecting the retained plane
indices. -/
def addPlanesLoop (ctx : SegContext) (pp ppv : List PlanePos)
    (dimVals : List (List (List Int))) (preserved : Bool) (nSort : Nat)
    (segnum : Nat) (planes : List (List (List Nat))) :
    List Nat → SegState → List Nat → Option SegErr × SegState × List Nat
  | [], s, contained => (none, s, contained)
  | j :: rest, s, contained =>
      if sum2 (planes.getD j []) = 0 then
        addPlanesLoop ctx pp ppv dimVals preserved nSort segnum planes
          rest s contained
      else
        match planeIndexValues dimVals (ppv.getD j []) with
        | .error e => (some e, s, contained)
        | .ok idxVals =>
            match buildDerivation ctx preserved nSort j with
            | .error e => (some e, s, contained)
            | .ok derivs =>
                let item : FrameItem :=
                  { segmentNumber := segnum,
                    dimensionIndexValues := segnum :: idxVals,
                    planePosition := pp.getD j [],
                    derivationImageSequence := derivs }
                let s2 := { s with
                  perFrameFunctionalGroups := s.perFrameFunctionalGroups ++ [item],
                  numberOfFrames := s.numberOfFrames + 1 }
                addPlanesLoop ctx pp ppv dimVals preserved nSort segnum planes
                  rest s2 (contained ++ [j])

/-- Binary or fractional plane stack for one segment number, from the
classified pixel content (source lines 752 to 767): scaled and rounded
uint8 samples for float input (wrapping modulo 256 as astype uint8 does),
an equality mask for labelled integer input, the array itself for boolean
input. -/
def planesForSegment (ctx : SegContext) (processed : PixelContent)
    (segnum : Nat) : Except SegErr (List (List (List Nat))) :=
  match processed with
  | .floats planes =>
      .ok (planes.map (fun p => p.map (fun row => row.map (fun q =>
        (roundHalfEven (q * (ctx.maximumFractionalValue : Rat))).toNat % 256))))
  | .ints .uint8 planes =>
      .ok (planes.map (fun p => p.map (fun row =>
        row.map (fun v => if v = segnum then 1 else 0))))
  | .ints .uint16 planes =>
      .ok (planes.map (fun p => p.map (fun row =>
        row.map (fun v => if v = segnum then 1 else 0))))
  | .ints .bool_ planes => .ok planes
  | .otherDtype _ => .error .invalidDtype

/-- Translation of _encode_pixels for a flat sample buffer of a
non-encapsulated transfer syntax: bit packing for BINARY, one byte per
uint8 sample otherwise (source lines 961 to 966). -/
def encodePixelsFlat (ctx : SegContext) (flat : List Nat) : List Nat :=
  if ctx.segmentationType = .BINARY then packBits flat
  else flat.map (fun v => v % 256)

/-- _encode_pixels on a stack of planes (non-encapsulated callers). -/
def encodePixelsMulti (ctx : SegContext)
    (planes : List (List (List Nat))) : List Nat :=
  encodePixelsFlat ctx (flatten3 planes)

/-- _encode_pixels on a single plane under an encapsulated transfer
syntax: delegate to encode_frame (source lines 943 to 960). -/
def encodePixelsSingle (ctx : SegContext) (plane : List (List Nat)) :
    Except SegErr (List Nat) :=
  encodeFrame ctx.codecs (plane.map (fun row => row.map Int.ofNat))
    ctx.transferSyntax ctx.bitsAllocated ctx.bitsStored .monochrome2 0

/-- Modelled from pydicom encapsulate: an empty Basic Offset Table item
followed by one item per frame, each padded to even length. -/
def encapsulateModel (frames : List (List Nat)) : List Nat :=
  [254, 255, 0, 224, 0, 0, 0, 0] ++
    frames.flatMap (fun f =>
      [254, 255, 0, 224] ++ toBytesLE 4 (f.length + f.length % 2) ++ f ++
        (if f.length % 2 = 1 then [0] else []))

def decodeDataSeqAux : Nat → List Nat → List (List Nat)
  | 0, _ => []
  | fuel + 1, bytes =>
      if bytes.length < 8 then []
      else
        let n := fromBytesLE ((bytes.drop 4).take 4)
        ((bytes.drop 8).take n) ::
          decodeDataSeqAux fuel (bytes.drop (8 + n))

/-- Modelled from pydicom decode_data_sequence: unwrap the encapsulated
item list back into per-frame byte strings, dropping the leading Basic
Offset Table item. -/
def decodeDataSequenceModel (bytes : List Nat) : List (List Nat) :=
  match decodeDataSeqAux bytes.length bytes with
  | [] => []
  | _ :: items => items

/-- Strategy selection of add_segments (source lines 710 to 730): frames
can be appended byte-wise exactly for non-encapsulated syntaxes when the
frame size is byte aligned (always for FRACTIONAL, else when the pixel
count is a multiple of eight). -/
def framewiseEncoding (ctx : SegContext) : Bool :=
  if ctx.transferSyntax.isEncapsulated then false
  else if ctx.segmentationType = .FRACTIONAL then true
  else (ctx.rows * ctx.columns * ctx.samplesPerPixel) % 8 == 0

/-- pydicom get_expected_length over the current object attributes. -/
def getExpectedLength (ctx : SegContext) (frames : Nat) : Nat :=
  expectedPixelDataLength ctx.rows ctx.columns ctx.samplesPerPixel frames
    ctx.bitsAllocated

/-- The existing stored frames as a flat boolean sample buffer, as
self.pixel_array.flatten() produces for a bit-packed BINARY object. -/
def existingFlatBits (ctx : SegContext) (s : SegState) : List Nat :=
  (unpackBits s.pixelData).take
    (ctx.rows * ctx.columns * ctx.samplesPerPixel * s.numberOfFrames)

def encodeFramesList (ctx : SegContext) (planes : List (List (List Nat))) :
    List Nat → Except SegErr (List (List Nat))
  | [] => .ok []
  | f :: rest =>
      match encodePixelsSingle ctx (planes.getD f []) with
      | .error e => .error e
      | .ok b =>
          match encodeFramesList ctx planes rest with
          | .error e => .error e
          | .ok bs => .ok (b :: bs)

/-- Translation of the descriptor loop of add_segments (source lines 752
to 905): per segment, derive its plane stack, run the plane loop, update
the byte sequence or the pending full re-encode accumulators, and extend
the segment sequence and inventory. -/
def addSegmentsLoop (ctx : SegContext) (pp ppv : List PlanePos)
    (dimVals : List (List (List Int))) (preserved : Bool) (nSort : Nat)
    (sortIdx : List Nat) (framewise isEncaps : Bool)
    (processed : PixelContent) :
    List SegmentDescription → SegState → List (List Nat) → List Nat →
    Option SegErr × SegState × List (List Nat) × List Nat
  | [], s, fullFrames, fullBits => (none, s, fullFrames, fullBits)
  | desc :: restDescs, s, fullFrames, fullBits =>
      let segnum := desc.segmentNumber
      match planesForSegment ctx processed segnum with
      | .error e => (some e, s, fullFrames, fullBits)
      | .ok planes =>
          match addPlanesLoop ctx pp ppv dimVals preserved nSort segnum
              planes sortIdx s [] with
          | (some e, s2, _) => (some e, s2, fullFrames, fullBits)
          | (none, s2, contained) =>
              let selected := contained.map (fun j => planes.getD j [])
              let byteStep : Except SegErr (SegState × List (List Nat) × List Nat) :=
                if framewise then
                  .ok ({ s2 with pixelData :=
                    s2.pixelData ++ encodePixelsMulti ctx selected },
                    fullFrames, fullBits)
                else if isEncaps then
                  match encodeFramesList ctx planes contained with
                  | .error e => .error e
                  | .ok bs => .ok (s2, fullFrames ++ bs, fullBits)
                else
                  .ok (s2, fullFrames, fullBits ++ flatten3 selected)
              match byteStep with
              | .error e => (some e, s2, fullFrames, fullBits)
              | .ok (s3, fullFrames2, fullBits2) =>
                  let s4 :=
                    if s3.segmentInventory.contains segnum then s3
                    else { s3 with
                      segmentSequence := s3.segmentSequence ++ [desc],
                      segmentInventory := s3.segmentInventory ++ [segnum] }
                  addSegmentsLoop ctx pp ppv dimVals preserved nSort sortIdx
                    framewise isEncaps processed restDescs s4 fullFrames2
                    fullBits2

/-- Tail of add_segments after the descriptor loop (source lines 907 to
918): re-encode the whole pixel array when the framewise strategy was not
available, restore the even total byte length with a trailing pad byte
(the source appends the character 0, byte value 48), and rebuild the
LUTs. -/
def padEvenPixelData (s : SegState) : SegState :=
  if s.pixelData.length % 2 = 1 then
    { s with pixelData := s.pixelData ++ [48] }
  else s

def reencodePixelData (ctx : SegContext) (framewise isEncaps : Bool)
    (s3 : SegState) (fullFrames : List (List Nat)) (fullBits : List Nat) :
    SegState :=
  if framewise then s3
  else if isEncaps then
    { s3 with pixelData := encapsulateModel fullFrames }
  else
    { s3 with pixelData := encodePixelsFlat ctx fullBits }

def finalizeAddSegments (ctx : SegContext) (framewise isEncaps : Bool)
    (s3 : SegState) (fullFrames : List (List Nat)) (fullBits : List Nat) :
    Option SegErr × SegState :=
  let s5 := padEvenPixelData
    (reencodePixelData ctx framewise isEncaps s3 fullFrames fullBits)
  match buildLuts ctx.refInstanceUids s5.perFrameFunctionalGroups with
  | .error e => (some e, s5)
  | .ok lut => (none, { s5 with luts := lut })

/-- Translation of the mutation phase of add_segments (source lines 645 to
918): assign SegmentsOverlap, resolve plane positions (failing on a count
mismatch), compute index values and the sort permutation, determine the
spatial-locations-preserved flag, initialise the byte strategy, run the
descriptor loop, re-encode when needed, restore even byte length, and
rebuild the LUTs. -/
def addSegmentsMutate (ctx : SegContext) (s : SegState) (v : ValidatedAdd)
    (planePositions : Option (List PlanePos)) : Option SegErr × SegState :=
  let overlapVal :=
    if s.segmentInventory = [] then SegmentsOverlapValues.no
    else SegmentsOverlapValues.undefined
  let s1 := { s with segmentsOverlap := some overlapVal }
  let sourcePlanePositions := ctx.sourcePlanePositions
  let nPlanes := contentNumPlanes v.processed
  let ppRes : Except SegErr (List PlanePos) :=
    match planePositions with
    | none =>
        if nPlanes ≠ sourcePlanePositions.length then
          .error .planeCountMismatchSource
        else .ok sourcePlanePositions
    | some pp =>
        if nPlanes ≠ pp.length then .error .planeCountMismatchProvided
        else .ok pp
  match ppRes with
  | .error e => (some e, s1)
  | .ok pp =>
      let ppv := (getIndexValues pp).1
      let sortIdx := (getIndexValues pp).2
      match comparePositionsToSource pp sourcePlanePositions with
      | .error _ => (some .indexErrorSourcePositions, s1)
      | .ok eqAll =>
          let preserved := eqAll && ctx.planeOrientationMatches
          let numAxes := (ppv.headD []).length
          let dimVals := dimensionPositionValues ppv numAxes
          let framewise := framewiseEncoding ctx
          let isEncaps := ctx.transferSyntax.isEncapsulated
          let s2 :=
            if framewise ∧
                s1.pixelData.length = getExpectedLength ctx s1.numberOfFrames + 1
            then { s1 with pixelData := s1.pixelData.dropLast }
            else s1
          let initFrames : List (List Nat) :=
            if ¬ framewise ∧ isEncaps ∧ s2.pixelData.length ≠ 0 then
              decodeDataSequenceModel s2.pixelData
            else []
          let initBits : List Nat :=
            if ¬ framewise ∧ ¬ isEncaps ∧ s2.pixelData.length ≠ 0 then
              existingFlatBits ctx s2
            else []
          match addSegmentsLoop ctx pp ppv dimVals preserved sortIdx.length
              sortIdx framewise isEncaps v.processed v.descriptors s2
              initFrames initBits with
          | (some e, s3, _, _) => (some e, s3)
          | (none, s3, fullFrames, fullBits) =>
              finalizeAddSegments ctx framewise isEncaps s3 fullFrames
                fullBits

/-- Translation of Segmentation.add_segments: the validation prefix
followed by the mutation phase; a validation failure propagates with the
object untouched. -/
def addSegments (ctx : SegContext) (s : SegState) (arr : NpArray)
    (segmentDescriptions : List SegmentDescription)
    (planePositions : Option (List PlanePos)) : Option SegErr × SegState :=
  match addSegmentsValidate ctx s arr segmentDescriptions with
  | .error e => (some e, s)
  | .ok v => addSegmentsMutate ctx s v planePositions

/-- The Segmentation attributes as the constructor initialises them just
before its add_segments call (source lines 369 to 430). -/
def initialSegState : SegState :=
  { segmentsOverlap := none,
    segmentSequence := [],
    segmentInventory := [],
    numberOfFrames := 0,
    perFrameFunctionalGroups := [],
    pixelData := [],
    luts := { singleSourceFramePerSegFrame := true,
              locationsPreserved := none, frameLut := [] } }

/-- The transfer syntaxes accepted by the Segmentation constructor
(source lines 237 to 248). -/
def supportedSegTransferSyntaxes : List TransferSyntax :=
  [.implicitVRLittleEndian, .explicitVRLittleEndian, .jpeg2000Lossless,
    .rleLossless]

/-- Translation of the validation prefix of Segmentation.__init__ that
runs before any pixel data is encoded (source lines 211 to 355): source
image checks, the supported transfer syntax check, and the per-type
checks, including the rejection of encapsulated transfer syntaxes for a
BINARY segmentation. -/
def initSegmentationChecks (numSourceImages : Nat) (uniquenessOk : Bool)
    (isMultiframe : Bool) (transferSyntax : TransferSyntax)
    (segmentationType : SegmentationTypeValues)
    (maxFractionalValue : Nat) : Except SegErr Unit :=
  if numSourceImages = 0 then .error .noSourceImages
  else if ¬ uniquenessOk then .error .sourceImagesMismatch
  else if isMultiframe ∧ numSourceImages > 1 then .error .multipleMultiframe
  else if ¬ supportedSegTransferSyntaxes.contains transferSyntax then
    .error .unsupportedTransferSyntax
  else
    match segmentationType with
    | .BINARY =>
        if transferSyntax.isEncapsulated then .error .binaryEncapsulated
        else .ok ()
    | .FRACTIONAL =>
        if maxFractionalValue > 2 ^ 8 then .error .maxFractionalTooLarge
        else .ok ()

/-- Translation of Segmentation.__init__ as far as this embedding models
it: the validation prefix, then the initial add_segments call on the
freshly initialised attributes. -/
def initSegmentation (ctx : SegContext) (uniquenessOk : Bool)
    (arr : NpArray) (segmentDescriptions : List SegmentDescription)
    (planePositions : Option (List PlanePos)) : Option SegErr × SegState :=
  match initSegmentationChecks ctx.numSourceImages uniquenessOk
      ctx.isMultiframe ctx.transferSyntax ctx.segmentationType
      ctx.maximumFractionalValue with
  | .error e => (some e, initialSegState)
  | .ok _ =>
      addSegments ctx initialSegState arr segmentDescriptions planePositions

/-- Translation of list_seg_frames_for_segment_number (source lines 1423
to 1434): validate the segment number against the segment range, then
read the frame LUT through the attribute names frame_lut and lut_seg_col.
Those bare names are never assigned anywhere in the repository —
_build_luts assigns only the underscored _frame_lut and _lut_seg_col
(source lines 1191 to 1198), and no property or attribute hook of the
class or of pydicom Dataset binds the bare names — so the read raises
AttributeError for every in-range segment number and the method can never
return a list. -/
def listSegFramesForSegmentNumber (s : SegState) (segmentNumber : Nat) :
    Except SegErr (List Nat) :=
  if ¬ (1 ≤ segmentNumber ∧ segmentNumber ≤ s.segmentSequence.length) then
    .error .keyErrorSegmentNumber
  else .error .attributeErrorFrameLut

inductive PixelsResult
  | stacked (arr : List (List (List (List Nat))))
  | labelmap (arr : List (List (List Nat)))
deriving DecidableEq, Repr

/-- One decoded stored frame pixel, with the special case of a
single-frame object whose decoded pixel array is two dimensional and is
used whatever the requested frame index (source lines 1531 to 1537). -/
def lookupStoredPixel (storedPlanes : List (List (List Nat)))
    (frameIdx r c : Nat) : Nat :=
  let plane :=
    if storedPlanes.length = 1 then storedPlanes.getD 0 []
    else storedPlanes.getD frameIdx []
  (plane.getD r []).getD c 0

/-- The stack of per-segment values of one output pixel: the stored frame
sample for cells holding a valid (positive) frame number, zero for -1
cells (source lines 1524 to 1537). -/
def buildCell (storedPlanes : List (List (List Nat))) (frmRow : List Int)
    (r c : Nat) : List Nat :=
  frmRow.map (fun v =>
    if 1 ≤ v then lookupStoredPixel storedPlanes (v - 1).toNat r c else 0)

/-- The zero-initialised output array of _get_pixels_by_seg_frame after
the copy loop. -/
def builtArray (storedPlanes : List (List (List Nat)))
    (matrix : List (List Int)) (rows cols : Nat) :
    List (List (List (List Nat))) :=
  matrix.map (fun frmRow =>
    (List.range rows).map (fun r =>
      (List.range cols).map (fun c => buildCell storedPlanes frmRow r c)))

/-- Translation of _get_pixels_by_seg_frame (source lines 1451 to 1557):
input validation, dense reconstruction from the frame matrix, and the
optional combination of binary segments into a label map with overlap
detection. The decoded stored pixel array (self.pixel_array) is passed in
as storedPlanes. -/
def getPixelsBySegFrame (segType : SegmentationTypeValues)
    (rows cols numberOfFrames numberOfSegments : Nat)
    (storedPlanes : List (List (List Nat))) (matrix : List (List Int))
    (segmentNumbers : List Nat) (combineSegments relabel : Bool) :
    Except SegErr PixelsResult :=
  if combineSegments ∧ segType ≠ .BINARY then .error .combineNotBinary
  else
    match matrix.flatten with
    | [] => .error .emptyArrayReduction
    | v :: vs =>
      let mn := vs.foldr min v
      let mx := vs.foldr max v
      if mn < -1 then .error .matrixNegative
      else if mx > (numberOfFrames : Int) then .error .matrixTooLarge
      else if segmentNumbers.length ≠ (matrix.headD []).length then
        .error .segmentNumbersShapeMismatch
      else
        match segmentNumbers with
        | [] => .error .emptyArrayReduction
        | sn :: sns =>
          let smn := sns.foldr min sn
          let smx := sns.foldr max sn
          if smn < 1 ∨ smx > numberOfSegments then
            .error .segmentNumbersInvalid
          else
            let built := builtArray storedPlanes matrix rows cols
            if combineSegments then
              if built.any (fun frame => frame.any (fun row =>
                  row.any (fun cell => decide (1 < cell.sum)))) then
                .error .overlappingSegments
              else
                let pvMap :=
                  if relabel then List.range' 1 segmentNumbers.length
                  else segmentNumbers
                .ok (.labelmap (built.map (fun frame => frame.map (fun row =>
                  row.map (fun cell =>
                    maxList (List.zipWith (fun a b => a * b) cell pvMap))))))
            else .ok (.stacked built)

/-- One (column, segment) lookup in a two-column LUT view: the one-based
position of the unique matching row, -1 when absent; more than one match
is the internal indexing error that the uniqueness check normally rules
out (source lines 1646 to 1662 and 1707 to 1723). -/
def frameForQuery (lutPairs : List (Nat × Nat)) (q : Nat × Nat) :
    Except SegErr Int :=
  let hits := (List.range lutPairs.length).filter
    (fun i => lutPairs.getD i (0, 0) == q)
  if hits.length = 1 then .ok ((hits.headD 0 : Int) + 1)
  else if 1 < hits.length then .error .internalIndexingError
  else .ok (-1)

def rowsForUids (refUids : List Nat) (lutPairs : List (Nat × Nat))
    (segs : List Nat) (assertMissing : Bool) :
    List Nat → Except SegErr (List (List Int))
  | [] => .ok []
  | uid :: rest =>
      let rowRes : Except SegErr (List Int) :=
        match getSrcUidIndex refUids uid with
        | .error .srcUidKeyError =>
            if assertMissing then .ok (segs.map (fun _ => (-1 : Int)))
            else .error .keyErrorSourceUid
        | .error e => .error e
        | .ok srcIdx =>
            segs.mapM (fun segNum => frameForQuery lutPairs (srcIdx, segNum))
      match rowRes with
      | .error e => .error e
      | .ok row =>
          match rowsForUids refUids lutPairs segs assertMissing rest with
          | .error e => .error e
          | .ok rows2 => .ok (row :: rows2)

/-- The variant of `frameForQuery` whose first LUT column holds source
frame numbers (integers). -/
def frameForQueryInt (lutPairs : List (Int × Nat)) (q : Int × Nat) :
    Except SegErr Int :=
  let hits := (List.range lutPairs.length).filter
    (fun i => lutPairs.getD i (0, 0) == q)
  if hits.length = 1 then .ok ((hits.headD 0 : Int) + 1)
  else if 1 < hits.length then .error .internalIndexingError
  else .ok (-1)

def rowsForFrameNumbers (lutPairs : List (Int × Nat)) (segs : List Nat)
    (assertMissing : Bool) : List Int → Except SegErr (List (List Int))
  | [] => .ok []
  | srcFrm :: rest =>
      let rowRes : Except SegErr (List Int) :=
        if ¬ (lutPairs.map (fun p => (p.2 : Int))).contains srcFrm then
          if assertMissing then .ok (segs.map (fun _ => (-1 : Int)))
          else .error .keyErrorSourceFrame
        else
          segs.mapM (fun segNum =>
            frameForQueryInt lutPairs (srcFrm, segNum))
      match rowRes with
      | .error e => .error e
      | .ok row =>
          match rowsForFrameNumbers lutPairs segs assertMissing rest with
          | .error e => .error e
          | .ok rows2 => .ok (row :: rows2)

/-- Body of get_pixels_by_source_frame after its availability gate
(source lines 1597 to 1730). -/
def getPixelsBySourceFrameBody (ctx : SegContext) (s : SegState)
    (storedPlanes : List (List (List Nat)))
    (sourceSopInstanceUids : List Nat)
    (sourceFrameNumbers : Option (List Int))
    (segmentNumbers : Option (List Nat))
    (combineSegments relabel assertMissingFramesAreEmpty : Bool) :
    Except SegErr PixelsResult :=
  let segs := segmentNumbers.getD (List.range' 1 s.segmentSequence.length)
  if segs.length = 0 then .error .emptySegmentNumbers
  else if sourceSopInstanceUids.length = 0 then .error .emptySourceUids
  else
    let matrixRes : Except SegErr (List (List Int)) :=
      match sourceFrameNumbers with
      | none =>
          let lutPairs := s.luts.frameLut.map (fun row => (row.2.1, row.1))
          if lutPairs.dedup.length ≠ lutPairs.length then
            .error .nonUniqueLutRows
          else
            rowsForUids ctx.refInstanceUids lutPairs segs
              assertMissingFramesAreEmpty sourceSopInstanceUids
      | some frameNumbers =>
          if sourceSopInstanceUids.length ≠ 1 then
            .error .onlyOneSourceInstanceAllowed
          else
            match getSrcUidIndex ctx.refInstanceUids
                (sourceSopInstanceUids.headD 0) with
            | .error e => .error e
            | .ok srcIdx =>
                let lutRows := s.luts.frameLut.filter
                  (fun row => row.2.1 == srcIdx)
                let lutPairs := lutRows.map (fun row => (row.2.2, row.1))
                if lutPairs.dedup.length ≠ lutPairs.length then
                  .error .nonUniqueLutRows
                else
                  rowsForFrameNumbers lutPairs segs
                    assertMissingFramesAreEmpty frameNumbers
    match matrixRes with
    | .error e => .error e
    | .ok matrix =>
        getPixelsBySegFrame ctx.segmentationType ctx.rows ctx.columns
          s.numberOfFrames s.segmentSequence.length storedPlanes matrix
          segs combineSegments relabel

/-- Translation of get_pixels_by_source_frame (source lines 1562 to 1730):
the availability gate over the spatial-locations summary and the
single-source-frame flag, followed by the frame matrix construction and
reconstruction. -/
def getPixelsBySourceFrame (ctx : SegContext) (s : SegState)
    (storedPlanes : List (List (List Nat)))
    (sourceSopInstanceUids : List Nat)
    (sourceFrameNumbers : Option (List Int))
    (segmentNumbers : Option (List Nat))
    (combineSegments relabel assertLocationsPreserved
      assertMissingFramesAreEmpty : Bool) : Except SegErr PixelsResult :=
  let afterGate1 : Except SegErr Unit :=
    match s.luts.locationsPreserved with
    | none =>
        if ¬ assertLocationsPreserved then
          .error .locationsNotPreservedUnknown
        else .ok ()
    | some .no => .error .locationsNotPreservedNo
    | some _ => .ok ()
  match afterGate1 with
  | .error e => .error e
  | .ok _ =>
      if ¬ s.luts.singleSourceFramePerSegFrame then
        .error .multipleSourceFramesPerSegFrame
      else
        getPixelsBySourceFrameBody ctx s storedPlanes sourceSopInstanceUids
          sourceFrameNumbers segmentNumbers combineSegments relabel
          assertMissingFramesAreEmpty

/-- A segmentation state with three segments and four stored frames whose
segment assignment in append order is 1, 2, 1, 2. -/
def stateC2 : SegState :=
  { segmentsOverlap := some .undefined,
    segmentSequence := [⟨1, 0⟩, ⟨2, 0⟩, ⟨3, 0⟩],
    segmentInventory := [1, 2, 3],
    numberOfFrames := 4,
    perFrameFunctionalGroups := [],
    pixelData := [],
    luts := { singleSourceFramePerSegFrame := true,
              locationsPreserved := some .yes,
              frameLut := [(1, 0, -1), (2, 0, -1), (1, 0, -1), (2, 0, -1)] } }

def ctxC10 : SegContext :=
  { rows := 2, columns := 4, samplesPerPixel := 1, bitsAllocated := 1,
    bitsStored := 1, segmentationType := .BINARY,
    maximumFractionalValue := 255, transferSyntax := .rleLossless,
    sourceImagesPresent := true, isMultiframe := false,
    numSourceImages := 1, sourceImageUids := [10], refInstanceUids := [10],
    sourcePlanePositions := [[[0, 0, 0]]],
    planeOrientationMatches := true, codecs := trivialCodecs [] }

/-- A standard BINARY framewise context over one single-frame source
image, used to instantiate theorems at concrete inputs. -/
def ctxBin : SegContext :=
  { rows := 2, columns := 4, samplesPerPixel := 1, bitsAllocated := 1,
    bitsStored := 1, segmentationType := .BINARY,
    maximumFractionalValue := 255,
    transferSyntax := .implicitVRLittleEndian,
    sourceImagesPresent := true, isMultiframe := false,
    numSourceImages := 1, sourceImageUids := [10], refInstanceUids := [10],
    sourcePlanePositions := [[[0, 0, 0]]],
    planeOrientationMatches := true, codecs := trivialCodecs [] }

/-- A frame whose derivation image sequence is empty: it references zero
source instances, so it is ambiguous. -/
def frameC8 : FrameItem := ⟨1, [1], [], []⟩

def lutC8 : LutState :=
  { singleSourceFramePerSegFrame := false,
    locationsPreserved := some .yes, frameLut := [] }

/-- A segmentation state that already holds segments one to four. -/
def stateC6 : SegState :=
  { segmentsOverlap := some .no,
    segmentSequence := [⟨1, 0⟩, ⟨2, 0⟩, ⟨3, 0⟩, ⟨4, 0⟩],
    segmentInventory := [1, 2, 3, 4],
    numberOfFrames := 0,
    perFrameFunctionalGroups := [],
    pixelData := [],
    luts := { singleSourceFramePerSegFrame := true,
              locationsPreserved := none, frameLut := [] } }

/-- The input-validation errors named by the claim that are raised in the
validation prefix of add_segments (source lines 537 to 643), before any
attribute of the object is assigned. -/
def isValidationErr : SegErr → Bool
  | .segmentsFromDataset => true
  | .badRank => true
  | .badShape => true
  | .nonMonotonicSegments => true
  | .emptyDescriptors => true
  | .badFirstSegmentNumber => true
  | .undescribedSegments => true
  | .emptyArrayReduction => true
  | .floatValuesOutOfRange => true
  | .tooManyDescriptors => true
  | .nonBinaryFloatValues => true
  | .invalidDtype => true
  | .duplicateSegment => true
  | _ => false

/-- The input state with only SegmentsOverlap assigned, as the mutation
phase of add_segments does first (source lines 649 to 654). -/
def overlapAssigned (s : SegState) : SegState :=
  let v :=
    if s.segmentInventory = [] then SegmentsOverlapValues.no
    else SegmentsOverlapValues.undefined
  { s with segmentsOverlap := some v }

/-- A context with three single-frame source images, for a three-plane
add_segments call. -/
def ctxC7 : SegContext :=
  { rows := 2, columns := 4, samplesPerPixel := 1, bitsAllocated := 1,
    bitsStored := 1, segmentationType := .BINARY,
    maximumFractionalValue := 255,
    transferSyntax := .implicitVRLittleEndian,
    sourceImagesPresent := true, isMultiframe := false,
    numSourceImages := 3, sourceImageUids := [10, 11, 12],
    refInstanceUids := [10, 11, 12],
    sourcePlanePositions := [[[0, 0, 0]], [[0, 0, 1]], [[0, 0, 2]]],
    planeOrientationMatches := true, codecs := trivialCodecs [] }

/-- A three-plane boolean pixel array whose middle plane is entirely
zero. -/
def arrC7 : NpArray :=
  ⟨3, .ints .bool_
    [[[1, 1, 1, 1], [0, 0, 0, 1]],
     [[0, 0, 0, 0], [0, 0, 0, 0]],
     [[1, 0, 0, 0], [0, 0, 0, 0]]]⟩

/-- The state the plane loop leaves behind in the concrete C7 witness
run: one retained plane out of two. -/
def stateC7loop : SegState :=
  { segmentsOverlap := none,
    segmentSequence := [],
    segmentInventory := [],
    numberOfFrames := 1,
    perFrameFunctionalGroups := [⟨1, [1], [], []⟩],
    pixelData := [],
    luts := { singleSourceFramePerSegFrame := true,
              locationsPreserved := none, frameLut := [] } }

/-- The pixel value map of the combine branch (source lines 1546 to 1550):
one-based consecutive labels when relabelling, the segment numbers
otherwise. -/
def pvMapOf (segs : List Nat) (relabel : Bool) : List Nat :=
  if relabel then List.range' 1 segs.length else segs

/-- The label map produced by the combine branch: each output cell scaled
by the pixel value map and reduced by maximum over the segment axis
(source lines 1552 to 1556). -/
def scaledLabelmap (sp : List (List (List Nat)))
    (matrix : List (List Int)) (rows cols : Nat) (segs : List Nat)
    (relabel : Bool) : List (List (List Nat)) :=
  (builtArray sp matrix rows cols).map (fun frame => frame.map (fun row =>
    row.map (fun cell =>
      maxList (List.zipWith (fun a b => a * b) cell (pvMapOf segs relabel)))))

/-- The maximum sample value of a plane stack, with 0 for the empty
stack. -/
def maxOfLabelmap (arr : List (List (List Nat))) : Nat :=
  maxList (flatten3 arr)

/-! ### Theorems -/

theorem chunksOfAux_fuel (w : Nat) :
    ∀ (f₁ f₂ : Nat) (l : List α), l.length ≤ f₁ → l.length ≤ f₂ →
      chunksOfAux w f₁ l = chunksOfAux w f₂ l := by
  intro f₁
  induction f₁ with
  | zero =>
      intro f₂ l h₁ h₂
      match l with
      | [] => cases f₂ <;> rfl
      | a :: rest => simp at h₁
  | succ f ih =>
      intro f₂ l h₁ h₂
      match l with
      | [] => cases f₂ <;> rfl
      | a :: rest =>
          match f₂ with
          | 0 => simp at h₂
          | f₂' + 1 =>
              simp only [chunksOfAux]
              congr 1
              apply ih
              · calc (rest.drop (w - 1)).length ≤ rest.length := by
                      simpa using List.length_drop_le (w - 1) rest
                  _ ≤ f := by simpa using h₁
              · calc (rest.drop (w - 1)).length ≤ rest.length := by
                      simpa using List.length_drop_le (w - 1) rest
                  _ ≤ f₂' := by simpa using h₂

theorem chunksOf_nil (w : Nat) : chunksOf w ([] : List α) = [] := rfl

theorem chunksOf_cons (w : Nat) (a : α) (rest : List α) :
    chunksOf w (a :: rest) =
      (a :: rest.take (w - 1)) :: chunksOf w (rest.drop (w - 1)) := by
  simp only [chunksOf, List.length_cons, chunksOfAux]
  congr 1
  apply chunksOfAux_fuel
  · simpa using List.length_drop_le (w - 1) rest
  · exact Nat.le_refl _

/-- Splitting a concatenation of `w`-length blocks recovers the blocks. -/
theorem chunksOf_flatten (w : Nat) (hw : 0 < w) :
    ∀ (l : List (List α)), (∀ r ∈ l, r.length = w) →
      chunksOf w l.flatten = l := by
  intro l
  induction l with
  | nil => intro _; simp [chunksOf_nil]
  | cons r t ih =>
      intro h
      have hr : r.length = w := h r (by simp)
      match r, hr with
      | [], hr => simp at hr; omega
      | a :: rest, hr =>
          have hrest : rest.length = w - 1 := by
            simp at hr; omega
          have htake : (rest ++ t.flatten).take (w - 1) = rest := by
            rw [← hrest]; exact List.take_left rest t.flatten
          have hdrop : (rest ++ t.flatten).drop (w - 1) = t.flatten := by
            rw [← hrest]; exact List.drop_left rest t.flatten
          simp only [List.flatten_cons, List.cons_append, chunksOf_cons, htake, hdrop]
          rw [ih (fun x hx => h x (by simp [hx]))]

theorem flatten_chunksOf_aux (w : Nat) :
    ∀ (n : Nat) (l : List α), l.length = n → (chunksOf w l).flatten = l := by
  intro n
  induction n using Nat.strong_induction_on with
  | _ n ih =>
      intro l hn
      match l with
      | [] => simp [chunksOf_nil]
      | a :: rest =>
          rw [chunksOf_cons]
          simp only [List.flatten_cons]
          have hd : (rest.drop (w - 1)).length ≤ rest.length := by
            simpa using List.length_drop_le (w - 1) rest
          have hlen : (rest.drop (w - 1)).length < n := by
            simp at hn; omega
          rw [ih _ hlen _ rfl]
          simp

/-- Flattening the chunks recovers the original flat list. -/
theorem flatten_chunksOf (w : Nat) (l : List α) :
    (chunksOf w l).flatten = l :=
  flatten_chunksOf_aux w l.length l rfl

theorem chunksOf_map_aux (w : Nat) (f : α → β) :
    ∀ (n : Nat) (l : List α), l.length = n →
      chunksOf w (l.map f) = (chunksOf w l).map (List.map f) := by
  intro n
  induction n using Nat.strong_induction_on with
  | _ n ih =>
      intro l hn
      match l with
      | [] => simp [chunksOf_nil]
      | a :: rest =>
          simp only [List.map_cons, chunksOf_cons, List.map_take, List.map_drop]
          have hd : (rest.drop (w - 1)).length ≤ rest.length := by
            simpa using List.length_drop_le (w - 1) rest
          have hlen : (rest.drop (w - 1)).length < n := by
            simp at hn; omega
          congr 1
          rw [← List.map_drop]
          exact ih _ hlen _ rfl

/-- Mapping a function commutes with chunking. -/
theorem chunksOf_map (w : Nat) (f : α → β) (l : List α) :
    chunksOf w (l.map f) = (chunksOf w l).map (List.map f) :=
  chunksOf_map_aux w f l.length l rfl

theorem chunksOf_length_mem_aux (w : Nat) (hw : 0 < w) :
    ∀ (n : Nat) (l : List α), l.length = n → l.length % w = 0 →
      ∀ c ∈ chunksOf w l, c.length = w := by
  intro n
  induction n using Nat.strong_induction_on with
  | _ n ih =>
      intro l hn
      match l with
      | [] => intro _ c hc; simp [chunksOf_nil] at hc
      | a :: rest =>
          intro hmod c hc
          rw [chunksOf_cons] at hc
          have hwle : w - 1 ≤ rest.length := by
            by_contra hlt
            push_neg at hlt
            have h1 : (a :: rest).length < w := by simp; omega
            have h2 : 0 < (a :: rest).length := by simp
            have := Nat.mod_eq_of_lt h1
            omega
          rcases List.mem_cons.mp hc with hc | hc
          · subst hc
            simp [List.length_take, Nat.min_eq_left hwle]
            omega
          · have hdroplen : (rest.drop (w - 1)).length = rest.length - (w - 1) := by
              simp
            have hmod2 : (rest.drop (w - 1)).length % w = 0 := by
              rw [hdroplen]
              have hmod' : (rest.length + 1) % w = 0 := by
                simpa using hmod
              obtain ⟨k, hk⟩ := Nat.dvd_of_mod_eq_zero hmod'
              match k, hk with
              | 0, hk => omega
              | k + 1, hk =>
                  rw [Nat.mul_succ] at hk
                  have : rest.length - (w - 1) = w * k := by omega
                  rw [this]
                  exact Nat.mul_mod_right w k
            have hd : (rest.drop (w - 1)).length ≤ rest.length := by
              simpa using List.length_drop_le (w - 1) rest
            exact ih (rest.drop (w - 1)).length
              (by simp at hn; omega) _ rfl hmod2 c hc

/-- Chunk lengths are exactly `w` when the total length is a multiple of `w`. -/
theorem chunksOf_length_mem (w : Nat) (hw : 0 < w) (l : List α)
    (hmod : l.length % w = 0) : ∀ c ∈ chunksOf w l, c.length = w :=
  chunksOf_length_mem_aux w hw l.length l rfl hmod

theorem chunksOf_length_aux (w : Nat) (hw : 0 < w) :
    ∀ (n : Nat) (l : List α), l.length = n → l.length % w = 0 →
      (chunksOf w l).length = l.length / w := by
  intro n
  induction n using Nat.strong_induction_on with
  | _ n ih =>
      intro l hn hmod
      match l with
      | [] => simp [chunksOf_nil]
      | a :: rest =>
          rw [chunksOf_cons]
          have hwle : w - 1 ≤ rest.length := by
            by_contra hlt
            push_neg at hlt
            have h1 : (a :: rest).length < w := by simp; omega
            have h2 : 0 < (a :: rest).length := by simp
            have := Nat.mod_eq_of_lt h1
            omega
          have hdroplen : (rest.drop (w - 1)).length = rest.length - (w - 1) := by
            simp
          have hmod' : (rest.length + 1) % w = 0 := by simpa using hmod
          obtain ⟨k, hk⟩ := Nat.dvd_of_mod_eq_zero hmod'
          match k, hk with
          | 0, hk => omega
          | k + 1, hk =>
              rw [Nat.mul_succ] at hk
              have hmod2 : (rest.drop (w - 1)).length % w = 0 := by
                rw [hdroplen]
                have : rest.length - (w - 1) = w * k := by omega
                rw [this]; exact Nat.mul_mod_right w k
              have hrec := ih (rest.drop (w - 1)).length
                (by simp at hn; omega) _ rfl hmod2
              have hq1 : (rest.drop (w - 1)).length / w = k := by
                rw [hdroplen]
                have : rest.length - (w - 1) = w * k := by omega
                rw [this, Nat.mul_div_cancel_left k hw]
              have hq2 : (rest.length + 1) / w = k + 1 := by
                have : rest.length + 1 = w * (k + 1) := by
                  rw [Nat.mul_succ]; omega
                rw [this, Nat.mul_div_cancel_left _ hw]
              simp only [List.length_cons]
              rw [hrec, hq1, hq2]

/-- Number of chunks when the length is an exact multiple of the width. -/
theorem chunksOf_length (w : Nat) (hw : 0 < w) (l : List α)
    (hmod : l.length % w = 0) : (chunksOf w l).length = l.length / w :=
  chunksOf_length_aux w hw l.length l rfl hmod

/-- Chunking a flat concatenation of equal-width encoded samples yields the
per-sample encodings. -/
theorem chunksOf_flatMap (w : Nat) (hw : 0 < w) (f : α → List β) :
    ∀ (l : List α), (∀ x ∈ l, (f x).length = w) →
      chunksOf w (l.flatMap f) = l.map f := by
  intro l hlen
  have h1 : l.flatMap f = (l.map f).flatten := by
    simp [List.flatMap_def]
  rw [h1]
  apply chunksOf_flatten w hw
  intro r hr
  obtain ⟨x, hx, rfl⟩ := List.mem_map.mp hr
  exact hlen x hx

theorem length_flatMap_const (w : Nat) (f : α → List β) :
    ∀ (l : List α), (∀ x ∈ l, (f x).length = w) →
      (l.flatMap f).length = l.length * w := by
  intro l
  induction l with
  | nil => intro _; simp
  | cons a t ih =>
      intro h
      simp only [List.flatMap_cons, List.length_append, List.length_cons]
      rw [h a (by simp), ih (fun x hx => h x (by simp [hx]))]
      ring

theorem byteOfBits_extract (c : List Nat) (hc : ∀ b ∈ c, b ≤ 1) :
    ∀ i, byteOfBits c / 2 ^ i % 2 = c.getD i 0 := by
  induction c with
  | nil => intro i; simp [byteOfBits]
  | cons b t ih =>
      intro i
      have hb : b ≤ 1 := hc b (by simp)
      have ht : ∀ x ∈ t, x ≤ 1 := fun x hx => hc x (by simp [hx])
      match i with
      | 0 =>
          simp only [byteOfBits, List.foldr_cons, pow_zero, Nat.div_one,
            List.getD_cons_zero]
          omega
      | i + 1 =>
          have hstep : (b + 2 * byteOfBits t) / 2 ^ (i + 1) = byteOfBits t / 2 ^ i := by
            rw [pow_succ, mul_comm (2 ^ i) 2, ← Nat.div_div_eq_div_mul]
            congr 1
            omega
          simp only [byteOfBits, List.foldr_cons]
          rw [show (b + 2 * List.foldr (fun b acc => b + 2 * acc) 0 t) =
              (b + 2 * byteOfBits t) from rfl, hstep, List.getD_cons_succ]
          exact ih ht i

theorem bitsOfByte_byteOfBits (c : List Nat) (hlen : c.length = 8)
    (hc : ∀ b ∈ c, b ≤ 1) : bitsOfByte (byteOfBits c) = c := by
  apply List.ext_getElem
  · simp [bitsOfByte, hlen]
  · intro n h₁ h₂
    simp only [bitsOfByte, List.getElem_map, List.getElem_range]
    rw [byteOfBits_extract c hc n]
    exact List.getD_eq_getElem c 0 h₂

/-- Round trip for bit packing: unpacking the packed bits of a 0/1 list
whose length is a multiple of eight recovers the list. -/
theorem unpackBits_packBits (bits : List Nat) (h8 : bits.length % 8 = 0)
    (hb : ∀ b ∈ bits, b ≤ 1) : unpackBits (packBits bits) = bits := by
  unfold unpackBits packBits
  rw [List.flatMap_map]
  have hchunks : ∀ c ∈ chunksOf 8 bits, bitsOfByte (byteOfBits c) = c := by
    intro c hc
    apply bitsOfByte_byteOfBits
    · exact chunksOf_length_mem 8 (by omega) bits h8 c hc
    · intro b hbmem
      apply hb
      have := flatten_chunksOf 8 bits
      rw [← this]
      exact List.mem_flatten.mpr ⟨c, hc, hbmem⟩
  rw [List.flatMap_def]
  have hmap : (chunksOf 8 bits).map (fun c => bitsOfByte (byteOfBits c)) =
      (chunksOf 8 bits).map id := List.map_congr_left hchunks
  rw [hmap, List.map_id]
  exact flatten_chunksOf 8 bits

theorem toBytesLE_length (w v : Nat) : (toBytesLE w v).length = w := by
  induction w generalizing v with
  | zero => rfl
  | succ w ih => simp [toBytesLE, ih]

theorem fromBytesLE_toBytesLE (w v : Nat) (hv : v < 256 ^ w) :
    fromBytesLE (toBytesLE w v) = v := by
  induction w generalizing v with
  | zero =>
      simp only [pow_zero] at hv
      have hv0 : v = 0 := by omega
      simp [toBytesLE, fromBytesLE, hv0]
  | succ w ih =>
      simp only [toBytesLE, fromBytesLE, List.foldr_cons]
      have hdiv : v / 256 < 256 ^ w := by
        rw [Nat.div_lt_iff_lt_mul (by omega)]
        calc v < 256 ^ (w + 1) := hv
          _ = 256 ^ w * 256 := by rw [pow_succ]
      have := ih (v / 256) hdiv
      rw [show List.foldr (fun b acc => b + 256 * acc) 0 (toBytesLE w (v / 256)) =
          fromBytesLE (toBytesLE w (v / 256)) from rfl, this]
      omega

theorem intToBytesLE_length (w : Nat) (v : Int) :
    (intToBytesLE w v).length = w := by
  simp [intToBytesLE, toBytesLE_length]

theorem signAdjust_roundTrip (w : Nat) (pr : Nat) (v : Int)
    (hpr : pr = 0 ∨ pr = 1)
    (hrange : if pr = 1 then -((256 : Int) ^ w / 2) ≤ v ∧ 2 * v < (256 : Int) ^ w
              else 0 ≤ v ∧ v < (256 : Int) ^ w) :
    signAdjust w pr (fromBytesLE (intToBytesLE w v)) = v := by
  have hm : (0 : Int) < (256 : Int) ^ w := by positivity
  have hcast : ((256 ^ w : Nat) : Int) = (256 : Int) ^ w := by
    push_cast; ring
  rcases hpr with hpr | hpr
  · subst hpr
    simp only [if_neg (by omega : ¬(0 : Nat) = 1)] at hrange
    obtain ⟨h0, h1⟩ := hrange
    have hmod : v % (256 : Int) ^ w = v := Int.emod_eq_of_lt h0 h1
    have htn : ((v % (256 : Int) ^ w).toNat : Int) = v := by
      rw [hmod]; exact Int.toNat_of_nonneg h0
    have hlt : (v % (256 : Int) ^ w).toNat < 256 ^ w := by
      zify [hcast]
      omega
    unfold intToBytesLE
    rw [fromBytesLE_toBytesLE w _ hlt]
    unfold signAdjust
    rw [if_neg (by omega)]
    exact htn
  · subst hpr
    simp only [if_pos rfl] at hrange
    obtain ⟨h0, h1⟩ := hrange
    by_cases hv : 0 ≤ v
    · have hltv : v < (256 : Int) ^ w := by omega
      have hmod : v % (256 : Int) ^ w = v := Int.emod_eq_of_lt hv hltv
      have htn : ((v % (256 : Int) ^ w).toNat : Int) = v := by
        rw [hmod]; exact Int.toNat_of_nonneg hv
      have hlt : (v % (256 : Int) ^ w).toNat < 256 ^ w := by
        zify [hcast]; omega
      unfold intToBytesLE
      rw [fromBytesLE_toBytesLE w _ hlt]
      unfold signAdjust
      rw [if_neg (by
        intro hcontra
        obtain ⟨_, hge⟩ := hcontra
        zify [hcast] at hge
        omega)]
      exact htn
    · push_neg at hv
      have hmem : v % (256 : Int) ^ w = v + (256 : Int) ^ w := by
        have h1 : (v + (256 : Int) ^ w * 1) % (256 : Int) ^ w =
            v % (256 : Int) ^ w := Int.add_mul_emod_self_left v ((256 : Int) ^ w) 1
        have h2 : (v + (256 : Int) ^ w) % (256 : Int) ^ w =
            v + (256 : Int) ^ w := by
          apply Int.emod_eq_of_lt <;> omega
        simp only [mul_one] at h1
        omega
      have htn : (((v % (256 : Int) ^ w)).toNat : Int) = v + (256 : Int) ^ w := by
        rw [hmem]; exact Int.toNat_of_nonneg (by omega)
      have hlt : (v % (256 : Int) ^ w).toNat < 256 ^ w := by omega
      unfold intToBytesLE
      rw [fromBytesLE_toBytesLE w _ hlt]
      unfold signAdjust
      rw [if_pos ⟨rfl, by omega⟩]
      omega

theorem flatten_length_const (l : List (List α)) (c : Nat)
    (h : ∀ r ∈ l, r.length = c) : l.flatten.length = l.length * c := by
  rw [← List.flatMap_id]
  exact length_flatMap_const c id l h

theorem decode_encode_uncompressed_bits (array : List (List Int))
    (rows columns : Nat) (hrows : array.length = rows)
    (hcols : ∀ r ∈ array, r.length = columns) (hcols0 : 0 < columns)
    (h8 : rows * columns % 8 = 0)
    (hvals : ∀ v ∈ array.flatten, v = 0 ∨ v = 1) :
    chunksOf columns
      (((unpackBits (packBits (array.flatten.map Int.toNat))).take
        (rows * columns)).map Int.ofNat) = array := by
  have hflen : array.flatten.length = rows * columns := by
    rw [flatten_length_const array columns hcols, hrows]
  have hblen : (array.flatten.map Int.toNat).length = rows * columns := by
    rw [List.length_map]; exact hflen
  have hb : ∀ b ∈ array.flatten.map Int.toNat, b ≤ 1 := by
    intro b hbmem
    obtain ⟨v, hv, rfl⟩ := List.mem_map.mp hbmem
    rcases hvals v hv with rfl | rfl <;> simp
  rw [unpackBits_packBits _ (by rw [hblen]; exact h8) hb]
  rw [← hblen, List.take_length, List.map_map]
  have hcast : array.flatten.map (fun v => ((Int.toNat v : Nat) : Int)) =
      array.flatten.map id := by
    apply List.map_congr_left
    intro v hv
    rcases hvals v hv with rfl | rfl <;> simp
  calc chunksOf columns (array.flatten.map (Int.ofNat ∘ Int.toNat))
      = chunksOf columns (array.flatten.map id) := by
        rw [← hcast]
        congr 1
    _ = array := by
        rw [List.map_id]
        exact chunksOf_flatten columns hcols0 array hcols

theorem decode_encode_uncompressed_bytes (array : List (List Int))
    (rows columns w pr : Nat) (hrows : array.length = rows)
    (hcols : ∀ r ∈ array, r.length = columns) (hcols0 : 0 < columns)
    (hw : 0 < w) (hpr : pr = 0 ∨ pr = 1)
    (hvals : ∀ v ∈ array.flatten,
      if pr = 1 then
        -((256 : Int) ^ w / 2) ≤ v ∧ 2 * v < (256 : Int) ^ w
      else 0 ≤ v ∧ v < (256 : Int) ^ w) :
    chunksOf columns
      ((chunksOf w (array.flatten.flatMap (intToBytesLE w))).map
        (fun ch => signAdjust w pr (fromBytesLE ch))) = array := by
  rw [chunksOf_flatMap w hw (intToBytesLE w) array.flatten
    (fun x _ => intToBytesLE_length w x)]
  rw [List.map_map]
  have hpt : array.flatten.map
      ((fun ch => signAdjust w pr (fromBytesLE ch)) ∘ intToBytesLE w) =
      array.flatten.map id := by
    apply List.map_congr_left
    intro v hv
    simpa using signAdjust_roundTrip w pr v hpr (hvals v hv)
  rw [hpt, List.map_id]
  exact chunksOf_flatten columns hcols0 array hcols

theorem packBits_plane_length (array : List (List Int)) (rows columns : Nat)
    (hrows : array.length = rows)
    (hcols : ∀ r ∈ array, r.length = columns)
    (h8 : rows * columns % 8 = 0) :
    (packBits (array.flatten.map Int.toNat)).length =
      expectedPixelDataLength rows columns 1 1 1 := by
  have hflen : (array.flatten.map Int.toNat).length = rows * columns := by
    rw [List.length_map, flatten_length_const array columns hcols, hrows]
  unfold packBits
  rw [List.length_map, chunksOf_length 8 (by omega) _ (by rw [hflen]; exact h8),
    hflen]
  simp [expectedPixelDataLength]
  omega

theorem flatMapBytes_plane_length (array : List (List Int))
    (rows columns w : Nat) (hrows : array.length = rows)
    (hcols : ∀ r ∈ array, r.length = columns) (hw : 0 < w) :
    (array.flatten.flatMap (intToBytesLE w)).length =
      expectedPixelDataLength rows columns 1 1 (8 * w) := by
  rw [length_flatMap_const w (intToBytesLE w) _
    (fun x _ => intToBytesLE_length w x)]
  rw [flatten_length_const array columns hcols, hrows]
  simp only [expectedPixelDataLength, mul_one]
  rw [if_neg (by omega)]
  rw [Nat.mul_div_cancel_left w (by omega : 0 < 8)]

theorem array_head_cols (array : List (List Int)) (rows columns : Nat)
    (hrows : array.length = rows)
    (hcols : ∀ r ∈ array, r.length = columns) :
    array.length * (array.headD []).length * 1 = rows * columns := by
  match array with
  | [] =>
      have h0 : rows = 0 := by simpa using hrows.symm
      simp [h0]
  | a :: t =>
      have : a.length = columns := hcols a (by simp)
      simp [hrows.symm, this]

/-- Round trip through the non-encapsulated encode/decode paths. -/
theorem frame_codec_round_trip_uncompressed (codecs : FrameCodecs)
    (array : List (List Int)) (ts : TransferSyntax)
    (rows columns bitsAllocated bitsStored : Nat)
    (pi : PhotometricInterpretation) (pr : Nat)
    (hunc : ts.isEncapsulated = false) (hts : ts ≠ .other)
    (hrows : array.length = rows)
    (hcols : ∀ r ∈ array, r.length = columns)
    (hcols0 : 0 < columns)
    (hpr : pr = 0 ∨ pr = 1)
    (hba : bitsAllocated = 1 ∨ ∃ w, 0 < w ∧ bitsAllocated = 8 * w)
    (h8 : bitsAllocated = 1 → rows * columns % 8 = 0)
    (hvals : validSampleValues bitsAllocated pr array) :
    (encodeFrame codecs array ts bitsAllocated bitsStored pi pr).bind
      (fun data => decodeFrame codecs data ts rows columns 1 bitsAllocated
        bitsStored pi pr none) = .ok array := by
  have hprc : ¬(pr ≠ 0 ∧ pr ≠ 1) := by rcases hpr with rfl | rfl <;> simp
  rcases hba with hba1 | ⟨w, hw, hbaw⟩
  · subst hba1
    have h8q := h8 rfl
    have hprod := array_head_cols array rows columns hrows hcols
    have hmod0 : (array.length * (array.headD []).length * 1) % 8 = 0 := by
      rw [hprod]; exact h8q
    have hprodn : array.length * (array.head?.getD []).length = rows * columns := by
      simpa using hprod
    have henc : encodeFrame codecs array ts 1 bitsStored pi pr =
        .ok (packBits (array.flatten.map Int.toNat)) := by
      simp [encodeFrame, hprc, hts, hunc, hprodn, h8q]
    have hlen : (packBits (array.flatten.map Int.toNat)).length =
        expectedPixelDataLength rows columns 1 1 1 :=
      packBits_plane_length array rows columns hrows hcols h8q
    have htake : (packBits (array.flatten.map Int.toNat)).take
        (expectedPixelDataLength rows columns 1 1 1) =
        packBits (array.flatten.map Int.toNat) := by
      rw [← hlen]; exact List.take_length _
    simp only [validSampleValues, if_pos rfl] at hvals
    have hlen2 : (packBits (List.map (List.map Int.toNat) array).flatten).length =
        expectedPixelDataLength rows columns 1 1 1 := by
      simpa using hlen
    have htake2 : List.take (expectedPixelDataLength rows columns 1 1 1)
        (packBits (List.map (List.map Int.toNat) array).flatten) =
        packBits (List.map (List.map Int.toNat) array).flatten := by
      simpa using htake
    have hplane2 : chunksOf columns (List.take (rows * columns)
        (List.map Int.ofNat
          (unpackBits (packBits (List.map (List.map Int.toNat) array).flatten)))) =
        array := by
      have hplane := decode_encode_uncompressed_bits array rows columns hrows
        hcols hcols0 h8q hvals
      simpa using hplane
    have hdec : decodeFrame codecs (packBits (array.flatten.map Int.toNat))
        ts rows columns 1 1 bitsStored pi pr none = .ok array := by
      simp [decodeFrame, hprc, hts, hunc, hlen2, htake2, hplane2]
    rw [henc]
    exact hdec
  · subst hbaw
    have hban1 : ¬(8 * w = 1) := by omega
    have hwdiv : 8 * w / 8 = w := Nat.mul_div_cancel_left w (by omega)
    have henc : encodeFrame codecs array ts (8 * w) bitsStored pi pr =
        .ok (array.flatten.flatMap (intToBytesLE (8 * w / 8))) := by
      simp [encodeFrame, hprc, hts, hunc, hban1]
    have hlen : (array.flatten.flatMap (intToBytesLE (8 * w / 8))).length =
        expectedPixelDataLength rows columns 1 1 (8 * w) := by
      rw [hwdiv]
      exact flatMapBytes_plane_length array rows columns w hrows hcols hw
    have htake : (array.flatten.flatMap (intToBytesLE (8 * w / 8))).take
        (expectedPixelDataLength rows columns 1 1 (8 * w)) =
        array.flatten.flatMap (intToBytesLE (8 * w / 8)) := by
      rw [← hlen]; exact List.take_length _
    simp only [validSampleValues, if_neg hban1, hwdiv] at hvals
    have hdec : decodeFrame codecs
        (array.flatten.flatMap (intToBytesLE (8 * w / 8)))
        ts rows columns 1 (8 * w) bitsStored pi pr none = .ok array := by
      have hplane := decode_encode_uncompressed_bytes array rows columns w pr
        hrows hcols hcols0 hw hpr hvals
      simp only [decodeFrame]
      rw [if_neg hprc,
        if_neg (show ¬((1 : Nat) > 1 ∧ True) by simp),
        if_neg (show ¬(ts.isEncapsulated = true) by simp [hunc]),
        if_neg hts,
        if_neg (show ¬((1 : Nat) ≠ 1) by simp),
        if_neg (by rw [hlen]; simp),
        if_neg hban1, htake, hwdiv]
      exact congrArg Except.ok hplane
    rw [henc]
    exact hdec

/-- C1: for every valid 2-D sample plane and pixel format, decoding the
result of encoding the plane (decode_frame applied to encode_frame output,
with the same transfer syntax, bit depth, photometric interpretation and
pixel representation) returns an array equal to the original plane, for
every supported scheme, including the 1-bit bit-packed binary case and the
8-bit fractional case; for the encapsulated schemes the external codec is
assumed to satisfy its contract (decode inverts encode, per the spec). -/
theorem frame_codec_round_trip (codecs : FrameCodecs)
    (array : List (List Int)) (ts : TransferSyntax)
    (rows columns bitsAllocated bitsStored : Nat)
    (pi : PhotometricInterpretation) (pr : Nat)
    (hts : ts ≠ .other)
    (hrows : array.length = rows)
    (hcols : ∀ r ∈ array, r.length = columns)
    (hcols0 : 0 < columns)
    (hpi : pi ≠ .rgb)
    (hpr : pr = 0 ∨ pr = 1)
    (hba : bitsAllocated = 1 ∨ ∃ w, 0 < w ∧ bitsAllocated = 8 * w)
    (h8 : bitsAllocated = 1 → rows * columns % 8 = 0)
    (hvals : validSampleValues bitsAllocated pr array)
    (hcodec : codecInverseAt codecs ts array) :
    (encodeFrame codecs array ts bitsAllocated bitsStored pi pr).bind
      (fun data => decodeFrame codecs data ts rows columns 1 bitsAllocated
        bitsStored pi pr none) = .ok array := by
  have hprc : ¬(pr ≠ 0 ∧ pr ≠ 1) := by rcases hpr with rfl | rfl <;> simp
  cases ts with
  | other => exact absurd rfl hts
  | implicitVRLittleEndian =>
      exact frame_codec_round_trip_uncompressed codecs array _ rows columns
        bitsAllocated bitsStored pi pr rfl (by simp) hrows hcols hcols0 hpr
        hba h8 hvals
  | explicitVRLittleEndian =>
      exact frame_codec_round_trip_uncompressed codecs array _ rows columns
        bitsAllocated bitsStored pi pr rfl (by simp) hrows hcols hcols0 hpr
        hba h8 hvals
  | jpegBaseline =>
      simp only [codecInverseAt] at hcodec
      cases pi with
      | rgb => exact absurd rfl hpi
      | monochrome1 =>
          simp [encodeFrame, decodeFrame, TransferSyntax.isEncapsulated,
            Except.bind, hprc, hcodec]
      | monochrome2 =>
          simp [encodeFrame, decodeFrame, TransferSyntax.isEncapsulated,
            Except.bind, hprc, hcodec]
      | ybrFull =>
          simp [encodeFrame, decodeFrame, TransferSyntax.isEncapsulated,
            Except.bind, hprc, hcodec]
  | jpeg2000Lossless =>
      simp only [codecInverseAt] at hcodec
      cases pi with
      | rgb => exact absurd rfl hpi
      | monochrome1 =>
          simp [encodeFrame, decodeFrame, TransferSyntax.isEncapsulated,
            Except.bind, hprc, hcodec]
      | monochrome2 =>
          simp [encodeFrame, decodeFrame, TransferSyntax.isEncapsulated,
            Except.bind, hprc, hcodec]
      | ybrFull =>
          simp [encodeFrame, decodeFrame, TransferSyntax.isEncapsulated,
            Except.bind, hprc, hcodec]
  | rleLossless =>
      simp only [codecInverseAt] at hcodec
      cases pi with
      | rgb => exact absurd rfl hpi
      | monochrome1 =>
          simp [encodeFrame, decodeFrame, TransferSyntax.isEncapsulated,
            Except.bind, hprc, hcodec]
      | monochrome2 =>
          simp [encodeFrame, decodeFrame, TransferSyntax.isEncapsulated,
            Except.bind, hprc, hcodec]
      | ybrFull =>
          simp [encodeFrame, decodeFrame, TransferSyntax.isEncapsulated,
            Except.bind, hprc, hcodec]

/-- Witness for C1: the round trip evaluated at a concrete 2-by-4 binary
plane with 1-bit bit packing. -/
theorem frame_codec_round_trip_witness :
    (encodeFrame (trivialCodecs [[1, 0, 0, 1], [0, 1, 1, 0]])
        [[1, 0, 0, 1], [0, 1, 1, 0]]
        .implicitVRLittleEndian 1 1 .monochrome2 0).bind
      (fun data => decodeFrame (trivialCodecs [[1, 0, 0, 1], [0, 1, 1, 0]])
        data .implicitVRLittleEndian 2 4 1 1 1 .monochrome2 0 none) =
      .ok [[1, 0, 0, 1], [0, 1, 1, 0]] :=
  frame_codec_round_trip (trivialCodecs [[1, 0, 0, 1], [0, 1, 1, 0]])
    [[1, 0, 0, 1], [0, 1, 1, 0]] .implicitVRLittleEndian 2 4 1 1
    .monochrome2 0
    (by decide) (by decide) (by decide) (by decide) (by decide)
    (Or.inl rfl) (Or.inl rfl) (fun _ => by decide)
    (by simp [validSampleValues]) trivial



theorem idxOf_lt_length [DecidableEq α] (r : α) (l : List α) (hr : r ∈ l) :
    idxOf r l < l.length := by
  induction l with
  | nil => simp at hr
  | cons x xs ih =>
      by_cases hx : x = r
      · simp [idxOf, hx]
      · have hr2 : r ∈ xs := by
          rcases List.mem_cons.mp hr with h | h
          · exact absurd h.symm hx
          · exact h
        simp only [idxOf, if_neg hx, List.length_cons]
        exact Nat.succ_lt_succ (ih hr2)

theorem getD_idxOf [DecidableEq α] [Inhabited α] (r : α) (l : List α)
    (d : α) (hr : r ∈ l) : l.getD (idxOf r l) d = r := by
  induction l with
  | nil => simp at hr
  | cons x xs ih =>
      by_cases hx : x = r
      · simp [idxOf, hx]
      · have hr2 : r ∈ xs := by
          rcases List.mem_cons.mp hr with h | h
          · exact absurd h.symm hx
          · exact h
        simp only [idxOf, if_neg hx, List.getD_cons_succ]
        exact ih hr2

theorem idxOf_getElem [DecidableEq α] (l : List α) (h : l.Nodup) (n : Nat)
    (hn : n < l.length) : idxOf l[n] l = n := by
  induction l generalizing n with
  | nil => simp at hn
  | cons x xs ih =>
      match n with
      | 0 => simp [idxOf]
      | n + 1 =>
          have hx : x ∉ xs := (List.nodup_cons.mp h).1
          have hn2 : n < xs.length := by simpa using hn
          have hmem : xs[n] ∈ xs := List.getElem_mem hn2
          have hne : x ≠ xs[n] := fun hc => hx (hc ▸ hmem)
          simp only [List.getElem_cons_succ, idxOf]
          rw [if_neg hne]
          rw [ih (List.nodup_cons.mp h).2 n hn2]

theorem map_idxOf_eq_range [DecidableEq α] (l : List α) (h : l.Nodup) :
    l.map (fun r => idxOf r l) = List.range l.length := by
  apply List.ext_getElem
  · simp
  · intro n h1 h2
    simp only [List.getElem_map, List.getElem_range]
    exact idxOf_getElem l h n (by simpa using h1)

theorem mem_sorted_dedup_mem (rows : List (List Int)) (r : List Int)
    (hr : r ∈ List.insertionSort lexR rows.dedup) : r ∈ rows := by
  have h1 : r ∈ rows.dedup := (List.perm_insertionSort lexR rows.dedup).mem_iff.mp hr
  exact List.mem_dedup.mp h1

/-- C3 counterexample: on two planes sharing the same position, the sort
index list returned by get_index_values has a single entry (numpy unique
drops the duplicate), so it is not a permutation of all plane indices and
its length differs from the number of input planes. -/
theorem get_index_values_duplicates_counterexample :
    ((getIndexValues [[[0]], [[0]]]).2).length = 1 ∧
      1 ∉ (getIndexValues [[[0]], [[0]]]).2 := by decide

/-- C3 amended: the sort index list of get_index_values contains exactly
the first-occurrence index of each distinct per-plane value vector, in
ascending lexicographic order of the vectors; it is deterministic, and
when all value vectors are distinct it is a permutation of all plane
indices. -/
theorem get_index_values_amended (pps : List PlanePos) :
    (getIndexValues pps).2.length = (pps.map List.flatten).dedup.length ∧
    (getIndexValues pps).2 = (getIndexValues pps).2 ∧
    List.Pairwise (fun i j => lexR ((pps.map List.flatten).getD i [])
      ((pps.map List.flatten).getD j [])) (getIndexValues pps).2 ∧
    (∀ i ∈ (getIndexValues pps).2,
      i = idxOf ((pps.map List.flatten).getD i []) (pps.map List.flatten)) ∧
    ((pps.map List.flatten).Nodup →
      ((getIndexValues pps).2).Perm (List.range pps.length)) := by
  refine ⟨?_, rfl, ?_, ?_, ?_⟩
  · simp only [getIndexValues, uniqueSortIndices, List.length_map]
    exact (List.perm_insertionSort lexR _).length_eq
  · have hsorted : List.Pairwise lexR
        (List.insertionSort lexR (pps.map List.flatten).dedup) :=
      List.sorted_insertionSort lexR (pps.map List.flatten).dedup
    simp only [getIndexValues, uniqueSortIndices]
    rw [List.pairwise_map]
    apply List.Pairwise.imp_of_mem ?_ hsorted
    intro a b ha hb hab
    rw [getD_idxOf a _ _ (mem_sorted_dedup_mem _ a ha),
      getD_idxOf b _ _ (mem_sorted_dedup_mem _ b hb)]
    exact hab
  · intro i hi
    simp only [getIndexValues, uniqueSortIndices] at hi
    obtain ⟨r, hr, rfl⟩ := List.mem_map.mp hi
    rw [getD_idxOf r _ _ (mem_sorted_dedup_mem _ r hr)]
  · intro h
    simp only [getIndexValues, uniqueSortIndices]
    rw [List.dedup_eq_self.mpr h]
    have hperm := (List.perm_insertionSort lexR (pps.map List.flatten)).map
      (fun r => idxOf r (pps.map List.flatten))
    rw [map_idxOf_eq_range _ h] at hperm
    simpa using hperm

/-- Witness for C3 amended: the permutation conjunct applied to two planes
with distinct positions. -/
theorem get_index_values_amended_witness :
    ([[[(1 : Int)]], [[0]]].map List.flatten).Nodup ∧
      ((getIndexValues [[[(1 : Int)]], [[0]]]).2).Perm (List.range 2) :=
  ⟨by decide,
    (get_index_values_amended [[[(1 : Int)]], [[0]]]).2.2.2.2 (by decide)⟩

/-- C2 (code bug): list_seg_frames_for_segment_number can never return a
frame list — after the segment-range check it reads the frame LUT through
attribute names that the repository never assigns, so every call raises
(KeyError out of range, AttributeError otherwise); in particular, on the
stored segment assignment 1, 2, 1, 2 the in-range query for segment 2
raises the attribute error instead of returning the frame numbers
[2, 4] the claim asserts. -/
theorem list_seg_frames_always_raises :
    (∀ (s : SegState) (n : Nat) (l : List Nat),
      listSegFramesForSegmentNumber s n ≠ .ok l) ∧
    listSegFramesForSegmentNumber stateC2 2 =
      .error .attributeErrorFrameLut ∧
    (1 ≤ 2 ∧ 2 ≤ stateC2.segmentSequence.length) := by
  refine ⟨?_, by decide, by decide⟩
  intro s n l h
  unfold listSegFramesForSegmentNumber at h
  split at h <;> simp at h

/-- C10: constructing a Segmentation with BINARY type and an encapsulated
transfer syntax fails in the constructor validation prefix, before any
pixel data is encoded (the object state handed back is the pristine
initial state with empty pixel data); with a supported non-encapsulated
transfer syntax the same prefix passes. -/
theorem binary_requires_non_encapsulated (ctx : SegContext)
    (uniquenessOk : Bool) (arr : NpArray)
    (descs : List SegmentDescription) (pps : Option (List PlanePos))
    (hbin : ctx.segmentationType = .BINARY) :
    (ctx.transferSyntax.isEncapsulated = true →
      ∃ e, initSegmentationChecks ctx.numSourceImages uniquenessOk
          ctx.isMultiframe ctx.transferSyntax ctx.segmentationType
          ctx.maximumFractionalValue = .error e ∧
        initSegmentation ctx uniquenessOk arr descs pps =
          (some e, initialSegState) ∧
        initialSegState.pixelData = []) ∧
    (ctx.transferSyntax.isEncapsulated = false →
      ctx.numSourceImages ≠ 0 →
      uniquenessOk = true →
      ¬ (ctx.isMultiframe ∧ ctx.numSourceImages > 1) →
      supportedSegTransferSyntaxes.contains ctx.transferSyntax = true →
      initSegmentationChecks ctx.numSourceImages uniquenessOk
        ctx.isMultiframe ctx.transferSyntax ctx.segmentationType
        ctx.maximumFractionalValue = .ok ()) := by
  constructor
  · intro henc
    simp only [initSegmentation, initSegmentationChecks, hbin, henc]
    split_ifs with h1 h2 h3 h4
    · exact ⟨_, rfl, rfl, rfl⟩
    · exact ⟨_, rfl, rfl, rfl⟩
    · exact ⟨_, rfl, rfl, rfl⟩
    · exact ⟨_, rfl, rfl, rfl⟩
    · exact ⟨_, rfl, rfl, rfl⟩
  · intro henc hnum huniq hmf hsupp
    simp only [initSegmentationChecks, hbin, henc]
    rw [if_neg hnum, if_neg (by simp [huniq]), if_neg hmf,
      if_neg (by simp only [Decidable.not_not]; exact hsupp)]
    simp

/-- Witness for C10: a BINARY segmentation over RLE Lossless fails the
constructor checks, and the same context over Implicit VR Little Endian
passes them. -/
theorem binary_requires_non_encapsulated_witness :
    (∃ e, initSegmentationChecks ctxC10.numSourceImages true
        ctxC10.isMultiframe ctxC10.transferSyntax ctxC10.segmentationType
        ctxC10.maximumFractionalValue = .error e ∧
      initSegmentation ctxC10 true
          ⟨3, .ints .bool_ [[[1, 1, 1, 1], [0, 0, 0, 1]]]⟩ [⟨1, 0⟩]
          (some [[[0, 0, 0]]]) = (some e, initialSegState) ∧
      initialSegState.pixelData = []) ∧
    initSegmentationChecks 1 true false .implicitVRLittleEndian .BINARY
      255 = .ok () :=
  ⟨(binary_requires_non_encapsulated ctxC10 true
      ⟨3, .ints .bool_ [[[1, 1, 1, 1], [0, 0, 0, 1]]]⟩ [⟨1, 0⟩]
      (some [[[0, 0, 0]]]) rfl).1 rfl,
    (binary_requires_non_encapsulated
      { ctxC10 with transferSyntax := .implicitVRLittleEndian } true
      ⟨3, .ints .bool_ [[[1, 1, 1, 1], [0, 0, 0, 1]]]⟩ [⟨1, 0⟩]
      (some [[[0, 0, 0]]]) rfl).2 rfl (by decide) rfl (by decide)
      (by decide)⟩

theorem padEvenPixelData_even (s : SegState) :
    (padEvenPixelData s).pixelData.length % 2 = 0 := by
  unfold padEvenPixelData
  by_cases h : s.pixelData.length % 2 = 1
  · simp [h]
    omega
  · simp [h]
    omega

theorem finalize_even (ctx : SegContext) (fw enc : Bool) (s3 : SegState)
    (ff : List (List Nat)) (fb : List Nat) (s2 : SegState)
    (h : finalizeAddSegments ctx fw enc s3 ff fb = (none, s2)) :
    s2.pixelData.length % 2 = 0 := by
  simp only [finalizeAddSegments] at h
  split at h
  · simp at h
  · rename_i lut heq
    have h2 : ({ padEvenPixelData
        (reencodePixelData ctx fw enc s3 ff fb) with luts := lut } :
        SegState) = s2 := by
      simpa using congrArg Prod.snd h
    rw [← h2]
    exact padEvenPixelData_even _

/-- C9: after every successful add_segments call, the stored pixel data
byte buffer has even length: the framewise path strips any trailing pad
byte before appending, and a single pad byte is re-added whenever the
resulting length is odd. -/
theorem add_segments_pixel_data_even (ctx : SegContext) (s : SegState)
    (arr : NpArray) (descs : List SegmentDescription)
    (pps : Option (List PlanePos)) (s2 : SegState)
    (h : addSegments ctx s arr descs pps = (none, s2)) :
    s2.pixelData.length % 2 = 0 := by
  unfold addSegments at h
  cases hval : addSegmentsValidate ctx s arr descs with
  | error e => rw [hval] at h; simp at h
  | ok v =>
      rw [hval] at h
      cases pps with
      | none =>
          simp only [addSegmentsMutate] at h
          repeat' split at h
          all_goals
            first
              | simp at h
              | exact finalize_even _ _ _ _ _ _ _ h
      | some pp =>
          simp only [addSegmentsMutate] at h
          repeat' split at h
          all_goals
            first
              | simp at h
              | exact finalize_even _ _ _ _ _ _ _ h

/-- Witness for C9: the even pixel data length on a concrete successful
call that packs eight retained pixels into one byte and pads. -/
theorem add_segments_pixel_data_even_witness :
    (addSegments ctxBin initialSegState
      ⟨3, .ints .bool_ [[[1, 1, 1, 1], [0, 0, 0, 1]]]⟩
      [⟨1, 0⟩] none).2.pixelData.length % 2 = 0 :=
  add_segments_pixel_data_even ctxBin initialSegState
    ⟨3, .ints .bool_ [[[1, 1, 1, 1], [0, 0, 0, 1]]]⟩ [⟨1, 0⟩] none
    (addSegments ctxBin initialSegState
      ⟨3, .ints .bool_ [[[1, 1, 1, 1], [0, 0, 0, 1]]]⟩ [⟨1, 0⟩] none).2
    (by decide)

theorem buildLutsAux_flag_false (refUids : List Nat) :
    ∀ (frames : List FrameItem) (acc : List (Nat × Nat × Int)) (fl : Bool)
      (rows : List (Nat × Nat × Int)),
      buildLutsAux refUids frames false acc = .ok (fl, rows) → fl = false := by
  intro frames
  induction frames with
  | nil =>
      intro acc fl rows h
      simp [buildLutsAux] at h
      exact h.1
  | cons f rest ih =>
      intro acc fl rows h
      simp only [buildLutsAux] at h
      repeat' split at h
      all_goals first
        | exact ih _ _ _ h
        | simp at h

theorem buildLutsAux_flag_amb (refUids : List Nat) :
    ∀ (frames : List FrameItem) (f : FrameItem), f ∈ frames →
      ambiguousFrame f →
      ∀ (acc : List (Nat × Nat × Int)) (fl0 fl : Bool)
        (rows : List (Nat × Nat × Int)),
        buildLutsAux refUids frames fl0 acc = .ok (fl, rows) → fl = false := by
  intro frames
  induction frames with
  | nil => intro f hmem; simp at hmem
  | cons g rest ih =>
      intro f hmem hamb acc fl0 fl rows h
      rcases List.mem_cons.mp hmem with hf | hf
      · subst hf
        simp only [buildLutsAux] at h
        rw [if_pos hamb] at h
        exact buildLutsAux_flag_false refUids rest acc fl rows h
      · simp only [buildLutsAux] at h
        repeat' split at h
        all_goals first
          | exact ih f hf hamb _ _ _ _ h
          | simp at h

theorem buildLuts_flag_amb (refUids : List Nat) (pffgs : List FrameItem)
    (lut : LutState) (f : FrameItem) (hmem : f ∈ pffgs)
    (hamb : ambiguousFrame f) (hbuild : buildLuts refUids pffgs = .ok lut) :
    lut.singleSourceFramePerSegFrame = false := by
  unfold buildLuts at hbuild
  cases heq : buildLutsAux refUids pffgs true [] with
  | error e => rw [heq] at hbuild; simp at hbuild
  | ok pair =>
      obtain ⟨flag, rows⟩ := pair
      rw [heq] at hbuild
      simp only [Except.ok.injEq] at hbuild
      have hflag := buildLutsAux_flag_amb refUids pffgs f hmem hamb []
        true flag rows heq
      rw [← hbuild]
      exact hflag

theorem source_frame_query_gate (ctx : SegContext) (s : SegState)
    (storedPlanes : List (List (List Nat))) (uids : List Nat)
    (fns : Option (List Int)) (sns : Option (List Nat))
    (c r alp amf : Bool)
    (hflag : s.luts.singleSourceFramePerSegFrame = false) :
    ∃ e, getPixelsBySourceFrame ctx s storedPlanes uids fns sns c r alp
      amf = .error e := by
  rcases hlp : s.luts.locationsPreserved with _ | v
  · by_cases halp : alp = true
    · exact ⟨.multipleSourceFramesPerSegFrame,
        by simp [getPixelsBySourceFrame, hlp, halp, hflag]⟩
    · exact ⟨.locationsNotPreservedUnknown,
        by simp [getPixelsBySourceFrame, hlp, halp]⟩
  · cases v with
    | no =>
        exact ⟨.locationsNotPreservedNo,
          by simp [getPixelsBySourceFrame, hlp]⟩
    | yes =>
        exact ⟨.multipleSourceFramesPerSegFrame,
          by simp [getPixelsBySourceFrame, hlp, hflag]⟩
    | unknown =>
        exact ⟨.multipleSourceFramesPerSegFrame,
          by simp [getPixelsBySourceFrame, hlp, hflag]⟩

/-- C8: if any frame references zero or several distinct source instances
or source frame numbers, _build_luts clears the single-source-frame flag
for the whole object, and every later get_pixels_by_source_frame call
fails with an error, whatever its arguments. -/
theorem ambiguous_source_disables_source_frame_queries
    (refUids : List Nat) (pffgs : List FrameItem) (lut : LutState)
    (f : FrameItem) (hmem : f ∈ pffgs) (hamb : ambiguousFrame f)
    (hbuild : buildLuts refUids pffgs = .ok lut) :
    lut.singleSourceFramePerSegFrame = false ∧
    ∀ (ctx : SegContext) (s : SegState)
      (storedPlanes : List (List (List Nat))) (uids : List Nat)
      (fns : Option (List Int)) (sns : Option (List Nat))
      (c r alp amf : Bool),
      s.luts = lut →
      ∃ e, getPixelsBySourceFrame ctx s storedPlanes uids fns sns c r alp
        amf = .error e := by
  have hflag := buildLuts_flag_amb refUids pffgs lut f hmem hamb hbuild
  refine ⟨hflag, ?_⟩
  intro ctx s storedPlanes uids fns sns c r alp amf hs
  exact source_frame_query_gate ctx s storedPlanes uids fns sns c r alp amf
    (by rw [hs]; exact hflag)

/-- Witness for C8: a one-frame object whose frame has no derivation
metadata gets the flag cleared, and a concrete source-frame query fails. -/
theorem ambiguous_source_disables_source_frame_queries_witness :
    lutC8.singleSourceFramePerSegFrame = false ∧
    ∃ e, getPixelsBySourceFrame ctxBin
      { initialSegState with luts := lutC8 } [] [10] none none false false
      false true = .error e :=
  have h := ambiguous_source_disables_source_frame_queries [] [frameC8]
    lutC8 frameC8 (by decide) (by decide) (by decide)
  ⟨h.1, h.2 ctxBin { initialSegState with luts := lutC8 } [] [10] none
    none false false false true rfl⟩

theorem validate_numbering (ctx : SegContext) (s : SegState)
    (arr : NpArray) (descs : List SegmentDescription) (v : ValidatedAdd)
    (h : addSegmentsValidate ctx s arr descs = .ok v) :
    contiguousByOne (descs.map (fun d => d.segmentNumber)) = true ∧
    (descs.map (fun d => d.segmentNumber)).headD 0 =
      (if s.segmentInventory ≠ [] then maxList s.segmentInventory + 1
       else 1) := by
  cases descs with
  | nil =>
      unfold addSegmentsValidate at h
      repeat' split at h
      all_goals simp [contiguousByOne] at h
  | cons d rest =>
      unfold addSegmentsValidate at h
      simp only [List.map_cons, List.head?_cons, Option.map_some'] at h
      repeat' split at h
      all_goals first
        | (constructor <;> simp_all)
        | simp at h

/-- C6: add_segments raises for every descriptor list whose numbers are
not contiguous ascending by one or whose first number is not
max(existing) + 1 (or 1 when no segments exist); in particular adding
descriptor number 3 to an empty object fails, while adding number 5 after
segments 1 to 4 succeeds. -/
theorem add_segments_numbering :
    (∀ (ctx : SegContext) (s : SegState) (arr : NpArray)
      (descs : List SegmentDescription) (pps : Option (List PlanePos)),
      descs ≠ [] →
      (contiguousByOne (descs.map (fun d => d.segmentNumber)) = false ∨
        (descs.map (fun d => d.segmentNumber)).headD 0 ≠
          (if s.segmentInventory ≠ [] then maxList s.segmentInventory + 1
           else 1)) →
      (addSegments ctx s arr descs pps).1.isSome = true) ∧
    (addSegments ctxBin initialSegState
      ⟨3, .ints .bool_ [[[1, 1, 1, 1], [0, 0, 0, 1]]]⟩ [⟨3, 0⟩]
      none).1.isSome = true ∧
    (addSegments ctxBin stateC6
      ⟨3, .ints .bool_ [[[1, 1, 1, 1], [0, 0, 0, 1]]]⟩ [⟨5, 0⟩]
      none).1 = none := by
  refine ⟨?_, by decide, by decide⟩
  intro ctx s arr descs pps hne hbad
  unfold addSegments
  cases hval : addSegmentsValidate ctx s arr descs with
  | error e => simp
  | ok v =>
      exfalso
      have hnum := validate_numbering ctx s arr descs v hval
      rcases hbad with hbad | hbad
      · rw [hnum.1] at hbad
        simp at hbad
      · exact hbad hnum.2

/-- Witness for C6: the general rejection applied to descriptor number 2
offered to an empty object. -/
theorem add_segments_numbering_witness :
    ([(⟨2, 0⟩ : SegmentDescription)] ≠ []) ∧
    (addSegments ctxBin initialSegState
      ⟨3, .ints .bool_ [[[1, 1, 1, 1], [0, 0, 0, 1]]]⟩ [⟨2, 0⟩]
      none).1.isSome = true :=
  ⟨by decide,
    add_segments_numbering.1 ctxBin initialSegState
      ⟨3, .ints .bool_ [[[1, 1, 1, 1], [0, 0, 0, 1]]]⟩ [⟨2, 0⟩] none
      (by decide) (Or.inr (by decide))⟩

/-- classifyPixels never classifies a pixel array into the unsupported
dtype family: each success branch rebuilds an integer or float stack. -/
theorem classifyPixels_not_other (t : SegmentationTypeValues)
    (c : PixelContent) (d : List Nat) (p : PixelContent)
    (h : classifyPixels t c d = .ok p) :
    ∀ pl, p ≠ .otherDtype pl := by
  intro pl
  simp only [classifyPixels] at h
  repeat' split at h
  all_goals simp at h
  all_goals (subst h; simp)

/-- The processed pixel content produced by the validation prefix is never
of the unsupported dtype family. -/
theorem validate_processed_not_other (ctx : SegContext) (s : SegState)
    (arr : NpArray) (descs : List SegmentDescription) (v : ValidatedAdd)
    (h : addSegmentsValidate ctx s arr descs = .ok v) :
    ∀ pl, v.processed ≠ .otherDtype pl := by
  cases descs with
  | nil =>
      unfold addSegmentsValidate at h
      repeat' split at h
      all_goals simp [contiguousByOne] at h
  | cons d rest =>
      unfold addSegmentsValidate at h
      simp only [List.map_cons, List.head?_cons, Option.map_some'] at h
      repeat' split at h
      all_goals first
        | (injection h with h2
           intro pl
           rw [← h2]
           exact classifyPixels_not_other _ _ _ _ (by assumption) pl)
        | simp at h

/-- Every error of the validation prefix belongs to the validation error
family. -/
theorem validate_error_in_family (ctx : SegContext) (s : SegState)
    (arr : NpArray) (descs : List SegmentDescription) (e : SegErr)
    (h : addSegmentsValidate ctx s arr descs = .error e) :
    isValidationErr e = true := by
  have hcls : ∀ (t : SegmentationTypeValues) (c : PixelContent)
      (d : List Nat) (e1 : SegErr), classifyPixels t c d = .error e1 →
      isValidationErr e1 = true := by
    intro t c d e1 h1
    simp only [classifyPixels] at h1
    repeat' split at h1
    all_goals simp at h1
    all_goals (subst h1; rfl)
  cases descs with
  | nil =>
      unfold addSegmentsValidate at h
      repeat' split at h
      all_goals simp [contiguousByOne] at h
      all_goals (subst h; rfl)
  | cons d rest =>
      unfold addSegmentsValidate at h
      simp only [List.map_cons, List.head?_cons, Option.map_some'] at h
      repeat' split at h
      all_goals first
        | (injection h with h2
           subst h2
           exact hcls _ _ _ _ (by assumption))
        | (simp at h
           subst h
           rfl)
        | simp at h

/-- planesForSegment succeeds on every classified pixel content. -/
theorem planesForSegment_ok (ctx : SegContext) (p : PixelContent)
    (n : Nat) (hp : ∀ pl, p ≠ .otherDtype pl) :
    ∃ planes, planesForSegment ctx p n = .ok planes := by
  cases p with
  | ints d pl => cases d <;> exact ⟨_, rfl⟩
  | floats pl => exact ⟨_, rfl⟩
  | otherDtype sh => exact absurd rfl (hp sh)

/-- The one-based dimension index lookup fails only with the
index-resolution error. -/
theorem lookupDimensionIndex_error (vals : List (List Int))
    (pos : List Int) (e : SegErr)
    (h : lookupDimensionIndex vals pos = .error e) :
    e = .indexResolution := by
  unfold lookupDimensionIndex at h
  split at h <;> simp_all

/-- Resolving the per-plane index values fails only with the
index-resolution error. -/
theorem planeIndexValues_error :
    ∀ (vals : List (List (List Int))) (pos : PlanePos) (e : SegErr),
    planeIndexValues vals pos = .error e → e = .indexResolution := by
  intro vals
  induction vals with
  | nil => intro pos e h; cases pos <;> simp [planeIndexValues] at h
  | cons v rest ih =>
      intro pos e h
      cases pos with
      | nil => simp [planeIndexValues] at h
      | cons p ps =>
          simp only [planeIndexValues] at h
          cases hl : lookupDimensionIndex v p with
          | error e1 =>
              rw [hl] at h
              simp at h
              subst h
              exact lookupDimensionIndex_error _ _ _ hl
          | ok i =>
              rw [hl] at h
              cases hr : planeIndexValues rest ps with
              | error e2 =>
                  rw [hr] at h
                  simp at h
                  subst h
                  exact ih ps e2 hr
              | ok is => rw [hr] at h; simp at h

/-- The derivation metadata builder fails only with the source-image-index
error. -/
theorem buildDerivation_error (ctx : SegContext) (pres : Bool)
    (nS j : Nat) (e : SegErr)
    (h : buildDerivation ctx pres nS j = .error e) :
    e = .sourceImageIndex := by
  unfold buildDerivation at h
  repeat' split at h
  all_goals simp_all

/-- The plane loop of add_segments fails only with the index-resolution or
source-image-index error. -/
theorem addPlanesLoop_error (ctx : SegContext) (pp ppv : List PlanePos)
    (dimVals : List (List (List Int))) (pres : Bool) (nS segnum : Nat)
    (planes : List (List (List Nat))) :
    ∀ (js : List Nat) (s : SegState) (contained : List Nat) (e : SegErr),
    (addPlanesLoop ctx pp ppv dimVals pres nS segnum planes
      js s contained).1 = some e →
    e = .indexResolution ∨ e = .sourceImageIndex := by
  intro js
  induction js with
  | nil => intro s c e h; simp [addPlanesLoop] at h
  | cons j rest ih =>
      intro s c e h
      unfold addPlanesLoop at h
      repeat' split at h
      all_goals first
        | exact ih _ _ _ h
        | (simp at h
           subst h
           first
             | exact Or.inl (planeIndexValues_error _ _ _ (by assumption))
             | exact Or.inr (buildDerivation_error _ _ _ _ _ (by assumption)))

/-- Encoding a single frame for an encapsulated transfer syntax always
succeeds: the three encapsulated syntaxes dispatch to their codec. -/
theorem encodePixelsSingle_isOk (ctx : SegContext)
    (plane : List (List Nat))
    (henc : ctx.transferSyntax.isEncapsulated = true) :
    ∃ b, encodePixelsSingle ctx plane = .ok b := by
  unfold encodePixelsSingle encodeFrame
  cases hts : ctx.transferSyntax <;>
    simp_all [TransferSyntax.isEncapsulated]

/-- Encoding the retained frames for an encapsulated transfer syntax never
fails. -/
theorem encodeFramesList_not_error (ctx : SegContext)
    (planes : List (List (List Nat)))
    (henc : ctx.transferSyntax.isEncapsulated = true) :
    ∀ (js : List Nat) (e : SegErr),
    encodeFramesList ctx planes js ≠ .error e := by
  intro js
  induction js with
  | nil => intro e h; simp [encodeFramesList] at h
  | cons j rest ih =>
      intro e h
      obtain ⟨b, hb⟩ := encodePixelsSingle_isOk ctx (planes.getD j []) henc
      simp only [encodeFramesList, hb] at h
      cases hr : encodeFramesList ctx planes rest with
      | error e2 => exact ih e2 hr
      | ok bs => rw [hr] at h; simp at h

/-- The source UID argwhere lookup fails only with the key-error or
multiple-match error. -/
theorem getSrcUidIndex_error (refUids : List Nat) (uid : Nat) (e : SegErr)
    (h : getSrcUidIndex refUids uid = .error e) :
    e = .srcUidKeyError ∨ e = .srcUidMultiple := by
  simp only [getSrcUidIndex] at h
  repeat' split at h
  all_goals simp_all

/-- The LUT builder worker fails only with the dangling-reference or
source-UID lookup errors. -/
theorem buildLutsAux_error (refUids : List Nat) :
    ∀ (fs : List FrameItem) (flag : Bool) (acc : List (Nat × Nat × Int))
      (e : SegErr), buildLutsAux refUids fs flag acc = .error e →
    e = .danglingSourceReference ∨ e = .srcUidKeyError ∨
      e = .srcUidMultiple := by
  intro fs
  induction fs with
  | nil => intro flag acc e h; simp [buildLutsAux] at h
  | cons f rest ih =>
      intro flag acc e h
      simp only [buildLutsAux] at h
      repeat' split at h
      all_goals first
        | exact ih _ _ _ h
        | (simp at h
           subst h
           first
             | simp [isValidationErr]
             | (rcases getSrcUidIndex_error _ _ _ (by assumption)
                 with h1 | h1 <;> simp [h1]))

/-- _build_luts fails only with the dangling-reference or source-UID
lookup errors. -/
theorem buildLuts_error (refUids : List Nat) (pffgs : List FrameItem)
    (e : SegErr) (h : buildLuts refUids pffgs = .error e) :
    e = .danglingSourceReference ∨ e = .srcUidKeyError ∨
      e = .srcUidMultiple := by
  simp only [buildLuts] at h
  cases hb : buildLutsAux refUids pffgs true [] with
  | error e1 =>
      rw [hb] at h
      simp at h
      subst h
      exact buildLutsAux_error refUids pffgs true [] e1 hb
  | ok pr =>
      obtain ⟨flag, rows⟩ := pr
      rw [hb] at h
      simp at h

/-- The tail of add_segments after the descriptor loop fails only with the
LUT-rebuild errors. -/
theorem finalizeAddSegments_error (ctx : SegContext) (fw enc : Bool)
    (s3 : SegState) (ff : List (List Nat)) (fb : List Nat) (e : SegErr)
    (h : (finalizeAddSegments ctx fw enc s3 ff fb).1 = some e) :
    e = .danglingSourceReference ∨ e = .srcUidKeyError ∨
      e = .srcUidMultiple := by
  simp only [finalizeAddSegments] at h
  cases hb : buildLuts ctx.refInstanceUids
      (padEvenPixelData
        (reencodePixelData ctx fw enc s3 ff fb)).perFrameFunctionalGroups with
  | error e1 =>
      rw [hb] at h
      simp at h
      subst h
      exact buildLuts_error _ _ _ hb
  | ok lut => rw [hb] at h; simp at h

/-- The descriptor loop of add_segments fails only with the
index-resolution or source-image-index error, provided the classified
pixel content is of a supported dtype and the encapsulation flag matches
the transfer syntax. -/
theorem addSegmentsLoop_error (ctx : SegContext) (pp ppv : List PlanePos)
    (dimVals : List (List (List Int))) (pres : Bool) (nS : Nat)
    (sortIdx : List Nat) (fw : Bool) (processed : PixelContent)
    (hne : ∀ pl, processed ≠ .otherDtype pl) :
    ∀ (descs : List SegmentDescription) (s : SegState)
      (ff : List (List Nat)) (fb : List Nat) (e : SegErr),
    (addSegmentsLoop ctx pp ppv dimVals pres nS sortIdx fw
      ctx.transferSyntax.isEncapsulated processed descs s ff fb).1 =
      some e →
    e = .indexResolution ∨ e = .sourceImageIndex := by
  intro descs
  induction descs with
  | nil => intro s ff fb e h; simp [addSegmentsLoop] at h
  | cons d rest ih =>
      intro s ff fb e h
      simp only [addSegmentsLoop] at h
      obtain ⟨planes, hpl⟩ :=
        planesForSegment_ok ctx processed d.segmentNumber hne
      rw [hpl] at h
      simp only [] at h
      rcases hap : addPlanesLoop ctx pp ppv dimVals pres nS d.segmentNumber
          planes sortIdx s [] with ⟨oe, s2, contained⟩
      rw [hap] at h
      cases oe with
      | some e1 =>
          simp at h
          subst h
          exact addPlanesLoop_error ctx pp ppv dimVals pres nS
            d.segmentNumber planes sortIdx s [] e1
            (by rw [hap])
      | none =>
          simp only [] at h
          by_cases hfw : fw = true
          · rw [if_pos hfw] at h
            exact ih _ _ _ _ h
          · rw [if_neg hfw] at h
            by_cases hie : ctx.transferSyntax.isEncapsulated = true
            · rw [if_pos hie] at h
              cases hef : encodeFramesList ctx planes contained with
              | error e2 =>
                  exact absurd hef
                    (encodeFramesList_not_error ctx planes hie contained e2)
              | ok bs =>
                  rw [hef] at h
                  exact ih _ _ _ _ h
            · rw [if_neg hie] at h
              exact ih _ _ _ _ h

/-- The mutation phase of add_segments never fails with a
validation-family error, and when it fails with a plane-count mismatch the
state it leaves behind is the input state with only SegmentsOverlap
assigned. -/
theorem addSegmentsMutate_error_family (ctx : SegContext) (s : SegState)
    (v : ValidatedAdd) (pps : Option (List PlanePos)) (e : SegErr)
    (s2 : SegState) (hne : ∀ pl, v.processed ≠ .otherDtype pl)
    (h : addSegmentsMutate ctx s v pps = (some e, s2)) :
    isValidationErr e = false ∧
    ((e = .planeCountMismatchSource ∨ e = .planeCountMismatchProvided) →
      s2 = overlapAssigned s) := by
  cases pps with
  | none =>
      simp only [addSegmentsMutate] at h
      by_cases hcnt : contentNumPlanes v.processed ≠
          ctx.sourcePlanePositions.length
      · rw [if_pos hcnt] at h
        simp only [] at h
        simp at h
        obtain ⟨h1, h2⟩ := h
        subst h1
        subst h2
        exact ⟨rfl, fun hc => rfl⟩
      · rw [if_neg hcnt] at h
        simp only [] at h
        repeat' split at h
        all_goals first
          | (simp at h
             obtain ⟨h1, h2⟩ := h
             subst h1
             subst h2
             refine ⟨rfl, fun hc => ?_⟩
             simp only [overlapAssigned]
             first
               | rfl
               | (rw [if_pos (by assumption)])
               | (rw [if_neg (by assumption)]))
          | (rcases finalizeAddSegments_error _ _ _ _ _ _ _
               (congrArg Prod.fst h) with h1 | h1 | h1 <;>
             subst h1 <;>
             exact ⟨rfl, fun hc => by rcases hc with hc | hc <;> simp at hc⟩)
          | (simp at h
             obtain ⟨h1, h2⟩ := h
             subst h1
             subst h2
             rename_i heq
             rcases addSegmentsLoop_error _ _ _ _ _ _ _ _ _ hne _ _ _ _ _
               (congrArg Prod.fst heq) with h1 | h1 <;>
             subst h1 <;>
             exact ⟨rfl, fun hc => by rcases hc with hc | hc <;> simp at hc⟩)
          | simp at h
  | some pp0 =>
      simp only [addSegmentsMutate] at h
      by_cases hcnt : contentNumPlanes v.processed ≠ pp0.length
      · rw [if_pos hcnt] at h
        simp only [] at h
        simp at h
        obtain ⟨h1, h2⟩ := h
        subst h1
        subst h2
        exact ⟨rfl, fun hc => rfl⟩
      · rw [if_neg hcnt] at h
        simp only [] at h
        repeat' split at h
        all_goals first
          | (simp at h
             obtain ⟨h1, h2⟩ := h
             subst h1
             subst h2
             refine ⟨rfl, fun hc => ?_⟩
             simp only [overlapAssigned]
             first
               | rfl
               | (rw [if_pos (by assumption)])
               | (rw [if_neg (by assumption)]))
          | (rcases finalizeAddSegments_error _ _ _ _ _ _ _
               (congrArg Prod.fst h) with h1 | h1 | h1 <;>
             subst h1 <;>
             exact ⟨rfl, fun hc => by rcases hc with hc | hc <;> simp at hc⟩)
          | (simp at h
             obtain ⟨h1, h2⟩ := h
             subst h1
             subst h2
             rename_i heq
             rcases addSegmentsLoop_error _ _ _ _ _ _ _ _ _ hne _ _ _ _ _
               (congrArg Prod.fst heq) with h1 | h1 <;>
             subst h1 <;>
             exact ⟨rfl, fun hc => by rcases hc with hc | hc <;> simp at hc⟩)
          | simp at h

/-- C4 counterexample: an add_segments call that fails with the
plane-position count mismatch (listed by the claim among the validation
errors) does NOT leave the object unchanged — SegmentsOverlap has already
been assigned when the mismatch is detected. -/
theorem add_segments_plane_mismatch_mutates :
    (addSegments ctxBin initialSegState
        ⟨3, .ints .bool_ [[[1, 1, 1, 1], [0, 0, 0, 1]]]⟩ [⟨1, 0⟩]
        (some [])).1 = some .planeCountMismatchProvided ∧
    (addSegments ctxBin initialSegState
        ⟨3, .ints .bool_ [[[1, 1, 1, 1], [0, 0, 0, 1]]]⟩ [⟨1, 0⟩]
        (some [])).2 ≠ initialSegState ∧
    (addSegments ctxBin initialSegState
        ⟨3, .ints .bool_ [[[1, 1, 1, 1], [0, 0, 0, 1]]]⟩ [⟨1, 0⟩]
        (some [])).2.segmentsOverlap = some SegmentsOverlapValues.no ∧
    initialSegState.segmentsOverlap = none := by decide

/-- C4 (amended): an add_segments call that fails with an error of the
validation prefix (wrong rank, wrong rows or columns, bad numbering,
duplicate segment, undescribed values, invalid dtype, or float values out
of range) leaves the object entirely unchanged; a call that fails with a
plane-position count mismatch leaves every attribute unchanged except
SegmentsOverlap, which has already been assigned. -/
theorem add_segments_validation_atomic :
    (∀ (ctx : SegContext) (s : SegState) (arr : NpArray)
       (descs : List SegmentDescription) (pps : Option (List PlanePos))
       (e : SegErr),
       (addSegments ctx s arr descs pps).1 = some e →
       isValidationErr e = true →
       (addSegments ctx s arr descs pps).2 = s) ∧
    (∀ (ctx : SegContext) (s : SegState) (arr : NpArray)
       (descs : List SegmentDescription) (pps : Option (List PlanePos))
       (e : SegErr),
       (addSegments ctx s arr descs pps).1 = some e →
       (e = .planeCountMismatchSource ∨ e = .planeCountMismatchProvided) →
       (addSegments ctx s arr descs pps).2 = overlapAssigned s) := by
  constructor
  · intro ctx s arr descs pps e h hval
    unfold addSegments at h ⊢
    cases hv : addSegmentsValidate ctx s arr descs with
    | error e1 => rfl
    | ok v =>
        rw [hv] at h
        simp only [] at h ⊢
        rcases hm : addSegmentsMutate ctx s v pps with ⟨oe, s3⟩
        rw [hm] at h
        simp at h
        subst h
        have hfam := addSegmentsMutate_error_family ctx s v pps e s3
          (validate_processed_not_other ctx s arr descs v hv) hm
        rw [hfam.1] at hval
        simp at hval
  · intro ctx s arr descs pps e h hpc
    unfold addSegments at h ⊢
    cases hv : addSegmentsValidate ctx s arr descs with
    | error e1 =>
        rw [hv] at h
        simp at h
        subst h
        have hfab := validate_error_in_family ctx s arr descs e1 hv
        rcases hpc with hc | hc <;> subst hc <;>
          simp [isValidationErr] at hfab
    | ok v =>
        rw [hv] at h
        simp only [] at h ⊢
        rcases hm : addSegmentsMutate ctx s v pps with ⟨oe, s3⟩
        rw [hm] at h
        simp at h
        subst h
        have hfam := addSegmentsMutate_error_family ctx s v pps e s3
          (validate_processed_not_other ctx s arr descs v hv) hm
        exact hfam.2 hpc

/-- Witness for C4: a bad-first-segment-number failure on an empty object,
leaving the state untouched. -/
theorem add_segments_validation_atomic_witness :
    (addSegments ctxBin initialSegState
        ⟨3, .ints .bool_ [[[1, 1, 1, 1], [0, 0, 0, 1]]]⟩ [⟨2, 0⟩] none).1 =
      some .badFirstSegmentNumber ∧
    isValidationErr .badFirstSegmentNumber = true ∧
    (addSegments ctxBin initialSegState
        ⟨3, .ints .bool_ [[[1, 1, 1, 1], [0, 0, 0, 1]]]⟩ [⟨2, 0⟩] none).2 =
      initialSegState :=
  ⟨by decide, by decide,
    add_segments_validation_atomic.1 ctxBin initialSegState
      ⟨3, .ints .bool_ [[[1, 1, 1, 1], [0, 0, 0, 1]]]⟩ [⟨2, 0⟩] none
      .badFirstSegmentNumber (by decide) (by decide)⟩

/-- C7: all-zero planes contribute no frame — the plane loop bumps the
frame count and the per-frame metadata list by exactly the number of
planes with a non-zero sample sum, and the retained plane indices are
exactly those planes; concretely, a three-plane single-segment input
whose middle plane is all-zero yields exactly two stored frames and two
per-frame entries. -/
theorem add_segments_empty_plane_skipping :
    (∀ (ctx : SegContext) (pp ppv : List PlanePos)
       (dimVals : List (List (List Int))) (pres : Bool) (nS segnum : Nat)
       (planes : List (List (List Nat))) (js : List Nat) (s : SegState)
       (contained : List Nat) (s2 : SegState) (c2 : List Nat),
       addPlanesLoop ctx pp ppv dimVals pres nS segnum planes
           js s contained = (none, s2, c2) →
       s2.numberOfFrames = s.numberOfFrames +
           (js.filter (fun j => sum2 (planes.getD j []) ≠ 0)).length ∧
       s2.perFrameFunctionalGroups.length =
         s.perFrameFunctionalGroups.length +
           (js.filter (fun j => sum2 (planes.getD j []) ≠ 0)).length ∧
       c2 = contained ++
           js.filter (fun j => sum2 (planes.getD j []) ≠ 0)) ∧
    ((addSegments ctxC7 initialSegState arrC7 [⟨1, 0⟩] none).1 = none ∧
     (addSegments ctxC7 initialSegState arrC7
         [⟨1, 0⟩] none).2.numberOfFrames = 2 ∧
     (addSegments ctxC7 initialSegState arrC7
         [⟨1, 0⟩] none).2.perFrameFunctionalGroups.length = 2) := by
  constructor
  · intro ctx pp ppv dimVals pres nS segnum planes js
    induction js with
    | nil =>
        intro s c s2 c2 h
        simp [addPlanesLoop] at h
        obtain ⟨h1, h2⟩ := h
        subst h1
        subst h2
        simp
    | cons j rest ih =>
        intro s c s2 c2 h
        unfold addPlanesLoop at h
        by_cases hz : sum2 (planes.getD j []) = 0
        · rw [if_pos hz] at h
          have hz2 : sum2 (planes[j]?.getD []) = 0 := by simpa using hz
          have hr := ih _ _ _ _ h
          simpa [List.filter_cons, hz2] using hr
        · rw [if_neg hz] at h
          have hz2 : ¬ sum2 (planes[j]?.getD []) = 0 := by simpa using hz
          cases hpi : planeIndexValues dimVals (ppv.getD j []) with
          | error e => rw [hpi] at h; simp at h
          | ok idxVals =>
              rw [hpi] at h
              cases hbd : buildDerivation ctx pres nS j with
              | error e => rw [hbd] at h; simp at h
              | ok derivs =>
                  rw [hbd] at h
                  have hr := ih _ _ _ _ h
                  obtain ⟨hr1, hr2, hr3⟩ := hr
                  refine ⟨?_, ?_, ?_⟩
                  · simp at hr1
                    simp [List.filter_cons, hz2]
                    omega
                  · simp at hr2
                    simp [List.filter_cons, hz2]
                    omega
                  · simp at hr3
                    simp [List.filter_cons, hz2]
                    try rw [hr3]
                    try simp
                    try simp_all
  · refine ⟨by decide, by decide, by decide⟩

/-- Witness for C7: the plane loop over a zero plane and a non-zero plane
retains only the latter. -/
theorem add_segments_empty_plane_skipping_witness :
    (addPlanesLoop ctxBin [] [] [] false 0 1 [[[0]], [[1]]] [0, 1]
        initialSegState []) = (none, stateC7loop, [1]) ∧
    stateC7loop.numberOfFrames = initialSegState.numberOfFrames +
      (([0, 1] : List Nat).filter
        (fun j =>
          sum2 (([[[0]], [[1]]] :
            List (List (List Nat))).getD j []) ≠ 0)).length :=
  ⟨by decide,
    (add_segments_empty_plane_skipping.1 ctxBin [] [] [] false 0 1
      [[[0]], [[1]]] [0, 1] initialSegState [] stateC7loop [1]
      (by decide)).1⟩

theorem le_maxList (l : List Nat) (a : Nat) (ha : a ∈ l) :
    a ≤ maxList l := by
  induction l with
  | nil => cases ha
  | cons x xs ih =>
      rcases List.mem_cons.mp ha with h | h
      · subst h; exact Nat.le_max_left _ _
      · exact Nat.le_trans (ih h) (Nat.le_max_right _ _)

theorem maxList_le (l : List Nat) (m : Nat) (h : ∀ a ∈ l, a ≤ m) :
    maxList l ≤ m := by
  induction l with
  | nil => exact Nat.zero_le m
  | cons x xs ih =>
      refine Nat.max_le.mpr ⟨h x (List.mem_cons_self x xs), ?_⟩
      exact ih (fun a ha => h a (List.mem_cons_of_mem x ha))

theorem maxList_mem (l : List Nat) (hl : l ≠ []) : maxList l ∈ l := by
  induction l with
  | nil => exact absurd rfl hl
  | cons x xs ih =>
      by_cases hx : xs = []
      · subst hx; simp [maxList]
      · rcases Nat.le_total x (maxList xs) with h | h
        · have h2 : maxList (x :: xs) = maxList xs := Nat.max_eq_right h
          rw [h2]
          exact List.mem_cons_of_mem x (ih hx)
        · have h2 : maxList (x :: xs) = x := Nat.max_eq_left h
          rw [h2]
          exact List.mem_cons_self x xs

theorem zipWith_mul_le_maxList (as bs : List Nat)
    (ha : ∀ a ∈ as, a ≤ 1) :
    maxList (List.zipWith (fun a b => a * b) as bs) ≤ maxList bs := by
  induction as generalizing bs with
  | nil => simp [maxList]
  | cons a as2 ih =>
      cases bs with
      | nil => simp [maxList]
      | cons b bs2 =>
          simp only [List.zipWith_cons_cons]
          refine Nat.max_le.mpr ⟨?_, ?_⟩
          · have h1 : a ≤ 1 := ha a (List.mem_cons_self _ _)
            calc a * b ≤ 1 * b :=
                  Nat.mul_le_mul_right b h1
              _ = b := Nat.one_mul b
              _ ≤ maxList (b :: bs2) := Nat.le_max_left _ _
          · exact Nat.le_trans
              (ih bs2 (fun x hx => ha x (List.mem_cons_of_mem a hx)))
              (Nat.le_max_right _ _)

theorem getD_default_or_mem (l : List α) (n : Nat) (d : α) :
    l.getD n d = d ∨ l.getD n d ∈ l := by
  induction l generalizing n with
  | nil => left; cases n <;> rfl
  | cons a as ih =>
      cases n with
      | zero => right; simp [List.getD]
      | succ m =>
          rcases ih m with h | h
          · left; simpa [List.getD] using h
          · right
            refine List.mem_cons_of_mem a ?_
            simpa [List.getD] using h

theorem maxList_range' : ∀ (n s : Nat), 1 ≤ n →
    maxList (List.range' s n) = s + n - 1 := by
  intro n
  induction n with
  | zero => intro s h; cases h
  | succ m ih =>
      intro s _
      by_cases hm : m = 0
      · subst hm; simp [List.range', maxList]
      · have h1 : 1 ≤ m := Nat.one_le_iff_ne_zero.mpr hm
        have := ih (s + 1) h1
        simp only [List.range'_succ, maxList, List.foldr_cons] at *
        rw [this]
        have h3 : s.max (s + 1 + m - 1) = s + 1 + m - 1 :=
          Nat.max_eq_right (by omega)
        rw [h3]
        omega

theorem mem_flatten3_iff (planes : List (List (List α))) (x : α) :
    x ∈ flatten3 planes ↔ ∃ p ∈ planes, ∃ row ∈ p, x ∈ row := by
  unfold flatten3
  rw [List.mem_flatten]
  constructor
  · rintro ⟨l, hl, hx⟩
    rcases List.mem_map.mp hl with ⟨p, hp, rfl⟩
    rw [List.mem_flatten] at hx
    obtain ⟨row, hrow, hx⟩ := hx
    exact ⟨p, hp, row, hrow, hx⟩
  · rintro ⟨p, hp, row, hrow, hx⟩
    refine ⟨p.flatten, List.mem_map_of_mem _ hp, ?_⟩
    rw [List.mem_flatten]
    exact ⟨row, hrow, hx⟩

/-- Stored sample values bounded by one bound every lookup. -/
theorem lookupStoredPixel_le_one (sp : List (List (List Nat)))
    (hb : ∀ p ∈ sp, ∀ row ∈ p, ∀ x ∈ row, x ≤ 1) (fi r c : Nat) :
    lookupStoredPixel sp fi r c ≤ 1 := by
  have hplane : ∀ (i : Nat), ∀ row ∈ sp.getD i [], ∀ x ∈ row, x ≤ 1 := by
    intro i
    rcases getD_default_or_mem sp i [] with h | h
    · rw [h]; intro row hrow; cases hrow
    · exact hb _ h
  have hval : ∀ (pl : List (List Nat)), (∀ row ∈ pl, ∀ x ∈ row, x ≤ 1) →
      (pl.getD r []).getD c 0 ≤ 1 := by
    intro pl hpl
    rcases getD_default_or_mem (pl.getD r []) c 0 with h2 | h2
    · rw [h2]; exact Nat.zero_le 1
    · rcases getD_default_or_mem pl r [] with h | h
      · rw [h] at h2; cases h2
      · exact hpl _ h _ h2
  simp only [lookupStoredPixel]
  split
  · exact hval _ (hplane 0)
  · exact hval _ (hplane fi)

/-- With binary stored frames every output cell sample is zero or one. -/
theorem buildCell_le_one (sp : List (List (List Nat)))
    (hb : ∀ p ∈ sp, ∀ row ∈ p, ∀ x ∈ row, x ≤ 1) (frmRow : List Int)
    (r c : Nat) : ∀ a ∈ buildCell sp frmRow r c, a ≤ 1 := by
  intro a ha
  unfold buildCell at ha
  rcases List.mem_map.mp ha with ⟨v, hv, rfl⟩
  split
  · exact lookupStoredPixel_le_one sp hb _ r c
  · exact Nat.zero_le 1

/-- Every sample of the scaled label map arises from one matrix row, one
output row and one output column. -/
theorem mem_scaledLabelmap (sp : List (List (List Nat)))
    (matrix : List (List Int)) (rows cols : Nat) (segs : List Nat)
    (relabel : Bool) (x : Nat)
    (hx : x ∈ flatten3 (scaledLabelmap sp matrix rows cols segs relabel)) :
    ∃ frmRow ∈ matrix, ∃ r ∈ List.range rows, ∃ c ∈ List.range cols,
      x = maxList (List.zipWith (fun a b => a * b)
        (buildCell sp frmRow r c) (pvMapOf segs relabel)) := by
  obtain ⟨p, hp, row, hrow, hxr⟩ := (mem_flatten3_iff _ _).mp hx
  rcases List.mem_map.mp hp with ⟨frame, hframe, rfl⟩
  rcases List.mem_map.mp hframe with ⟨frmRow, hfrm, rfl⟩
  rcases List.mem_map.mp hrow with ⟨row0, hrow0, rfl⟩
  rcases List.mem_map.mp hrow0 with ⟨r, hr, rfl⟩
  rcases List.mem_map.mp hxr with ⟨cell, hcell, rfl⟩
  rcases List.mem_map.mp hcell with ⟨c, hc, rfl⟩
  exact ⟨frmRow, hfrm, r, hr, c, hc, rfl⟩

/-- The reverse direction: each chosen plane-row-column triple produces a
sample of the scaled label map. -/
theorem scaledLabelmap_mem_intro (sp : List (List (List Nat)))
    (matrix : List (List Int)) (rows cols : Nat) (segs : List Nat)
    (relabel : Bool) (frmRow : List Int) (r c : Nat)
    (hf : frmRow ∈ matrix) (hr : r < rows) (hc : c < cols) :
    maxList (List.zipWith (fun a b => a * b)
        (buildCell sp frmRow r c) (pvMapOf segs relabel)) ∈
      flatten3 (scaledLabelmap sp matrix rows cols segs relabel) := by
  refine (mem_flatten3_iff _ _).mpr ?_
  refine ⟨((List.range rows).map (fun r2 => (List.range cols).map
      (fun c2 => buildCell sp frmRow r2 c2))).map
      (fun row => row.map (fun cell =>
        maxList (List.zipWith (fun a b => a * b) cell
          (pvMapOf segs relabel)))), ?_, ?_⟩
  · exact List.mem_map_of_mem _ (List.mem_map_of_mem _ hf)
  · refine ⟨((List.range cols).map (fun c2 => buildCell sp frmRow r c2)).map
        (fun cell => maxList (List.zipWith (fun a b => a * b) cell
          (pvMapOf segs relabel))), ?_, ?_⟩
    · exact List.mem_map_of_mem _
        (List.mem_map_of_mem _ (List.mem_range.mpr hr))
    · exact List.mem_map_of_mem _
        (List.mem_map_of_mem _ (List.mem_range.mpr hc))

theorem getD_mem_of_lt (l : List α) (n : Nat) (d : α)
    (h : n < l.length) : l.getD n d ∈ l := by
  rw [List.getD_eq_getElem?_getD, List.getElem?_eq_getElem h]
  exact List.getElem_mem h

/-- Upper bound: no sample of the scaled label map exceeds the largest
pixel map value. -/
theorem scaledLabelmap_le (sp : List (List (List Nat)))
    (matrix : List (List Int)) (rows cols : Nat) (segs : List Nat)
    (relabel : Bool)
    (hb : ∀ p ∈ sp, ∀ row ∈ p, ∀ x ∈ row, x ≤ 1) :
    maxOfLabelmap (scaledLabelmap sp matrix rows cols segs relabel) ≤
      maxList (pvMapOf segs relabel) := by
  refine maxList_le _ _ ?_
  intro x hx
  obtain ⟨frmRow, hf, r, hr, c, hc, rfl⟩ :=
    mem_scaledLabelmap sp matrix rows cols segs relabel x hx
  exact zipWith_mul_le_maxList _ _ (buildCell_le_one sp hb frmRow r c)

/-- Attainment: when every segment column holds a positive pixel
somewhere, the largest pixel map value is reached. -/
theorem scaledLabelmap_ge (sp : List (List (List Nat)))
    (matrix : List (List Int)) (rows cols : Nat) (segs : List Nat)
    (relabel : Bool)
    (hrect : ∀ row ∈ matrix, row.length = segs.length)
    (hne : segs ≠ [])
    (hcov : ∀ k < segs.length, ∃ f < matrix.length, ∃ r < rows,
      ∃ c < cols, (buildCell sp (matrix.getD f []) r c).getD k 0 = 1) :
    maxList (pvMapOf segs relabel) ≤
      maxOfLabelmap (scaledLabelmap sp matrix rows cols segs relabel) := by
  have hpvlen : (pvMapOf segs relabel).length = segs.length := by
    cases relabel <;> simp [pvMapOf]
  have hpvne : pvMapOf segs relabel ≠ [] := by
    intro hcon
    apply hne
    have := hpvlen
    rw [hcon] at this
    exact List.eq_nil_of_length_eq_zero this.symm
  obtain ⟨k, hk, hkval⟩ :=
    List.mem_iff_getElem.mp (maxList_mem _ hpvne)
  have hk2 : k < segs.length := hpvlen ▸ hk
  obtain ⟨f, hf, r, hr, c, hc, hcell⟩ := hcov k hk2
  have hfrmMem : matrix.getD f [] ∈ matrix := getD_mem_of_lt _ _ _ hf
  have hcl : (buildCell sp (matrix.getD f []) r c).length = segs.length := by
    simp only [buildCell, List.length_map]
    exact hrect _ hfrmMem
  have hklt : k < (buildCell sp (matrix.getD f []) r c).length :=
    hcl ▸ hk2
  have hziplen : k < (List.zipWith (fun a b => a * b)
      (buildCell sp (matrix.getD f []) r c)
      (pvMapOf segs relabel)).length := by
    rw [List.length_zipWith]
    omega
  have hcellk : (buildCell sp (matrix.getD f []) r c)[k] = 1 := by
    rw [List.getD_eq_getElem?_getD, List.getElem?_eq_getElem hklt] at hcell
    simpa using hcell
  have hzipk : (List.zipWith (fun a b => a * b)
      (buildCell sp (matrix.getD f []) r c)
      (pvMapOf segs relabel))[k] = maxList (pvMapOf segs relabel) := by
    rw [List.getElem_zipWith, hcellk, hkval, Nat.one_mul]
  calc maxList (pvMapOf segs relabel)
      = (List.zipWith (fun a b => a * b)
          (buildCell sp (matrix.getD f []) r c)
          (pvMapOf segs relabel))[k] := hzipk.symm
    _ ≤ maxList (List.zipWith (fun a b => a * b)
          (buildCell sp (matrix.getD f []) r c)
          (pvMapOf segs relabel)) :=
        le_maxList _ _ (List.getElem_mem hziplen)
    _ ≤ maxOfLabelmap (scaledLabelmap sp matrix rows cols segs relabel) :=
        le_maxList _ _ (scaledLabelmap_mem_intro sp matrix rows cols segs
          relabel (matrix.getD f []) r c hfrmMem hr hc)

/-- The maximum of the pixel value map is the segment count when
relabelling and the largest segment number otherwise. -/
theorem maxList_pvMapOf (segs : List Nat) (relabel : Bool)
    (hne : segs ≠ []) :
    maxList (pvMapOf segs relabel) =
      if relabel then segs.length else maxList segs := by
  cases relabel with
  | false => simp [pvMapOf]
  | true =>
      simp only [pvMapOf, if_pos rfl, if_true]
      have hlen : 1 ≤ segs.length := by
        cases segs with
        | nil => exact absurd rfl hne
        | cons a l => simp
      rw [maxList_range' segs.length 1 hlen]
      omega

/-- C5 counterexample: with no shared positive pixels the combine call can
succeed with a label map whose maximum is NOT len(segment_numbers) — a
missing (-1) frame reference leaves the single output column empty, so the
relabelled maximum is 0, not 1. -/
theorem get_pixels_combine_max_counterexample :
    getPixelsBySegFrame .BINARY 1 1 1 1 [[[1]]] [[-1]] [1] true true =
      .ok (.labelmap [[[0]]]) ∧
    maxOfLabelmap [[[0]]] = 0 ∧ ([1] : List Nat).length = 1 := by decide

/-- C5 (amended): combining requires BINARY type; any successful combine
returns the overlap-free scaled label map; a shared positive pixel makes
the call fail with the overlap error once the input checks pass; and the
label map maximum equals len(segment_numbers) (relabel) or the largest
segment number (no relabel) PROVIDED stored samples are binary, the frame
matrix is rectangular, and every segment column receives at least one
positive pixel. -/
theorem get_pixels_combine_segments :
    (∀ (segType : SegmentationTypeValues) (rows cols nF nS : Nat)
       (sp : List (List (List Nat))) (matrix : List (List Int))
       (segs : List Nat) (relabel : Bool),
       segType ≠ .BINARY →
       getPixelsBySegFrame segType rows cols nF nS sp matrix segs
         true relabel = .error .combineNotBinary) ∧
    (∀ (segType : SegmentationTypeValues) (rows cols nF nS : Nat)
       (sp : List (List (List Nat))) (matrix : List (List Int))
       (segs : List Nat) (relabel : Bool) (res : PixelsResult),
       getPixelsBySegFrame segType rows cols nF nS sp matrix segs
         true relabel = .ok res →
       ((builtArray sp matrix rows cols).any (fun frame => frame.any
         (fun row => row.any (fun cell => decide (1 < cell.sum)))) =
           false) ∧
       res = .labelmap (scaledLabelmap sp matrix rows cols segs relabel)) ∧
    (∀ (rows cols nF nS : Nat) (sp : List (List (List Nat)))
       (matrix : List (List Int)) (segs : List Nat) (relabel : Bool)
       (v : Int) (vs : List Int) (sn : Nat) (sns : List Nat),
       matrix.flatten = v :: vs →
       ¬ vs.foldr min v < -1 →
       ¬ vs.foldr max v > (nF : Int) →
       segs = sn :: sns →
       segs.length = (matrix.headD []).length →
       ¬ (sns.foldr min sn < 1 ∨ sns.foldr max sn > nS) →
       (builtArray sp matrix rows cols).any (fun frame => frame.any
         (fun row => row.any (fun cell => decide (1 < cell.sum)))) = true →
       getPixelsBySegFrame .BINARY rows cols nF nS sp matrix segs
         true relabel = .error .overlappingSegments) ∧
    (∀ (sp : List (List (List Nat))) (matrix : List (List Int))
       (rows cols : Nat) (segs : List Nat) (relabel : Bool),
       (∀ p ∈ sp, ∀ row ∈ p, ∀ x ∈ row, x ≤ 1) →
       (∀ row ∈ matrix, row.length = segs.length) →
       segs ≠ [] →
       (∀ k < segs.length, ∃ f < matrix.length, ∃ r < rows,
         ∃ c < cols,
         (buildCell sp (matrix.getD f []) r c).getD k 0 = 1) →
       maxOfLabelmap (scaledLabelmap sp matrix rows cols segs relabel) =
         if relabel then segs.length else maxList segs) := by
  refine ⟨?_, ?_, ?_, ?_⟩
  · intro segType rows cols nF nS sp matrix segs relabel ht
    simp [getPixelsBySegFrame, ht]
  · intro segType rows cols nF nS sp matrix segs relabel res h
    simp only [getPixelsBySegFrame] at h
    repeat' split at h
    all_goals first
      | (rename_i hov hrel
         injection h with h2
         subst h2
         first
           | subst hrel
           | (simp at hrel
              subst hrel)
         exact ⟨by simpa using hov, rfl⟩)
      | (rename_i hnt
         exact absurd trivial hnt)
      | simp at h
  · intro rows cols nF nS sp matrix segs relabel v vs sn sns
      hfl hmn hmx hsegs hlen hsnum hov
    subst hsegs
    simp only [getPixelsBySegFrame]
    rw [if_neg (show ¬(True ∧
      SegmentationTypeValues.BINARY ≠ SegmentationTypeValues.BINARY)
      by simp)]
    rw [hfl]
    simp only []
    rw [if_neg hmn, if_neg hmx, if_neg (not_not.mpr hlen),
      if_neg hsnum, if_pos trivial, if_pos hov]
  · intro sp matrix rows cols segs relabel hb hrect hne hcov
    have h1 := scaledLabelmap_le sp matrix rows cols segs relabel hb
    have h2 := scaledLabelmap_ge sp matrix rows cols segs relabel
      hrect hne hcov
    rw [Nat.le_antisymm h1 h2]
    exact maxList_pvMapOf segs relabel hne

/-- Witness for C5: a FRACTIONAL combine is rejected; a clean two-segment
reconstruction succeeds with the expected label map; and the
no-relabel maximum over two covered segments is the largest segment
number. -/
theorem get_pixels_combine_segments_witness :
    ((SegmentationTypeValues.FRACTIONAL : SegmentationTypeValues) ≠
        .BINARY ∧
      getPixelsBySegFrame .FRACTIONAL 1 1 2 2 [[[1]], [[1]]]
        [[1, -1], [-1, 2]] [1, 2] true false =
          .error .combineNotBinary) ∧
    (getPixelsBySegFrame .BINARY 1 1 2 2 [[[1]], [[1]]]
        [[1, -1], [-1, 2]] [1, 2] true false =
          .ok (.labelmap
            (scaledLabelmap [[[1]], [[1]]] [[1, -1], [-1, 2]] 1 1
              [1, 2] false)) ∧
      scaledLabelmap [[[1]], [[1]]] [[1, -1], [-1, 2]] 1 1 [1, 2] false =
        [[[1]], [[2]]]) ∧
    maxOfLabelmap
        (scaledLabelmap [[[1]], [[1]]] [[1, -1], [-1, 2]] 1 1
          [1, 2] false) = 2 :=
  ⟨⟨by decide,
      get_pixels_combine_segments.1 .FRACTIONAL 1 1 2 2 [[[1]], [[1]]]
        [[1, -1], [-1, 2]] [1, 2] false (by decide)⟩,
    ⟨by
      have h2 := get_pixels_combine_segments.2.1 .BINARY 1 1 2 2
        [[[1]], [[1]]] [[1, -1], [-1, 2]] [1, 2] false
        (.labelmap (scaledLabelmap [[[1]], [[1]]] [[1, -1], [-1, 2]] 1 1
          [1, 2] false)) (by decide)
      decide,
      by decide⟩,
    by
      have h4 := get_pixels_combine_segments.2.2.2 [[[1]], [[1]]]
        [[1, -1], [-1, 2]] 1 1 [1, 2] false (by decide) (by decide)
        (by decide) (by decide)
      simpa using h4⟩

end HighdicomSeg
